import Mathlib

/-!
# range_mi: the mutual-information visualizer nodes

A shallow embedding of `src/node/mi_visualizer.cpp` (class
`MutualInformationVisualizer`: `map_callback`, the selection and lookahead
loops of `click_callback`, `compute_mi`, the MI part of `draw_map`) and of the
map conversion and MI normalisation of `src/node/occupancy_grid_mi.cpp` (class
`OccupancyGridMI`).

Conventions of the embedding.

* A finite C++ `double` is the rational number (`ℚ`) it denotes; infinities and
  NaN are not modelled. Where the rounding of an operation decides a stored
  or returned value (the comparisons of `classify`, the display value of
  `mi_display`), every operation is rounded to binary64 by `round_double`
  (nearest, ties to even). The squared distances of the lookahead loop, the
  fractions of the sweep and the vacancy values are exact rationals.
* `unsigned int` / `uint32_t` arithmetic is arithmetic modulo `2^32`
  (`wrapU32`), conversion to `int` is `toInt32`.
* A step that leaves defined behaviour (reading a vector past its end,
  converting an out-of-range value to `int8_t`, reading a variable that was
  never written) is reported as a `Fault`. So is a division by zero: its
  quotient is not a number, and the only use the code makes of it is a
  conversion to `int8_t`.
* The grid wanderer `w` (`wandering_robot::GridWanderer`) is an external
  library object. Its surfaces `w.states()` and `w.mi()` are inputs of the
  functions below; nothing is assumed about how it computes them.
-/

namespace RangeMI

/-! ## Machine integers and faults -/

/-- Value of an integer expression after reduction to `unsigned int`. -/
def wrapU32 (n : Int) : Int := n % 2 ^ 32

/-- Value of an integer expression after conversion to `int`. -/
def toInt32 (n : Int) : Int := (n + 2 ^ 31) % 2 ^ 32 - 2 ^ 31

/-- Ways in which a step of the node can leave defined behaviour. -/
inductive Fault
  | out_of_bounds
  | div_by_zero
  | int8_range
  | uninitialized
  deriving DecidableEq, Repr

/-! ## Binary64 rounding -/

/-- Rounding of a rational to an integer: to the nearest, a tie to the even
neighbour. -/
def round_half_even (q : ℚ) : Int :=
  if q - (⌊q⌋ : ℚ) < 1 / 2 then ⌊q⌋
  else if 1 / 2 < q - (⌊q⌋ : ℚ) then ⌊q⌋ + 1
  else if ⌊q⌋ % 2 = 0 then ⌊q⌋ else ⌊q⌋ + 1

/-- Exponent of the spacing of the binary64 numbers at a magnitude `q`: 52
below the binary exponent of `q`, the binary exponent being at least `-1022`
(below it the numbers are subnormal and keep the spacing `2^(-1074)`). -/
def ulp_exponent (q : ℚ) : Int := max (Int.log 2 q) (-1022) - 52

/-- The binary64 number nearest to a magnitude `q >= 0` (ties to even): `q` is
rounded to a multiple of the spacing at `q`. The result of an operation is
taken to be finite, that is below `2^1024`. -/
def round_magnitude (q : ℚ) : ℚ :=
  (round_half_even (q / 2 ^ ulp_exponent q) : ℚ) * 2 ^ ulp_exponent q

/-- The `double` that an arithmetic operation with exact result `q` returns:
round to nearest, ties to even, symmetric in the sign. -/
def round_double (q : ℚ) : ℚ :=
  if q < 0 then -round_magnitude (-q) else round_magnitude q

/-! ## Data model -/

/-- The three classes of `wandering_robot::OccupancyState`. -/
inductive OccupancyState
  | free
  | occupied
  | unknown
  deriving DecidableEq, Repr

/-- The fields of `nav_msgs::MapMetaData` the node reads or stores. -/
structure MapMetaData where
  resolution : ℚ
  width : Nat
  height : Nat
  origin_x : ℚ
  origin_y : ℚ
  deriving DecidableEq

/-- An incoming `nav_msgs::OccupancyGrid`: frame id, metadata, and the flat
array of `int8_t` cell values. -/
structure OccupancyGrid where
  frame_id : String
  info : MapMetaData
  data : List Int
  deriving DecidableEq

/-- The members of `MutualInformationVisualizer` that `map_callback` writes:
`map_info`, `map_frame_id`, and the state grid handed to the grid wanderer
`w` through `set_map`. -/
structure GridState where
  map_info : MapMetaData
  map_frame_id : String
  states : List OccupancyState
  deriving DecidableEq

/-! ## `map_callback` (mi_visualizer.cpp, lines 46-75) -/

/-- Body of the conversion loop, lines 54-63: `value = data[i]/100.` and the
chain of three comparisons. The member `unknown_threshold` is a `double`
(line 215), so it holds the configured value rounded (`threshold`; a value
that is a double is held unchanged, `round_double_idem`). The `int8_t` value
converts to `double` exactly; the division, `0.5 - unknown_threshold` and
`0.5 + unknown_threshold` are `double` operations. -/
def classify (unknown_threshold : ℚ) (v : Int) : OccupancyState :=
  let threshold : ℚ := round_double unknown_threshold
  let value : ℚ := round_double ((v : ℚ) / 100)
  if value < 0 then OccupancyState.unknown
  else if value < round_double (1 / 2 - threshold) then OccupancyState.free
  else if value > round_double (1 / 2 + threshold) then OccupancyState.occupied
  else OccupancyState.unknown

/-- The conversion loop `for (i = 0; i < states.size(); i++)` run for `n`
iterations: iteration `i` reads `map_msg.data[i]`, which faults when the data
array is shorter. -/
def convert_states (unknown_threshold : ℚ) (data : List Int) :
    Nat → Except Fault (List OccupancyState)
  | 0 => Except.ok []
  | n + 1 =>
    match convert_states unknown_threshold data n with
    | Except.error e => Except.error e
    | Except.ok done =>
      match data[n]? with
      | none => Except.error Fault.out_of_bounds
      | some v => Except.ok (done ++ [classify unknown_threshold v])

/-- The state-writing part of `map_callback`: metadata and frame id are stored
first (lines 48-49), the state vector has `height * width` entries (an
`unsigned int` product, line 52), and the result is installed in a fresh grid
wanderer (lines 67-72). The previous state `_old` is an argument because the
callback runs on the node object; the code never reads it. -/
def map_callback (unknown_threshold : ℚ) (_old : GridState) (map_msg : OccupancyGrid) :
    Except Fault GridState :=
  let size := (wrapU32 ((map_msg.info.height : Int) * (map_msg.info.width : Int))).toNat
  match convert_states unknown_threshold map_msg.data size with
  | Except.error e => Except.error e
  | Except.ok states =>
    Except.ok { map_info := map_msg.info, map_frame_id := map_msg.frame_id, states := states }

/-! ## Row-major decoding (mi_visualizer.cpp, lines 116-117) -/

/-- Lines 116-117: `int y_ = mi_max_cell/map_info.width;` and
`int x_ = mi_max_cell - y_ * map_info.width;`. The operands are converted to
`unsigned int`, the results back to `int`; a zero width is a division by
zero. Returns `(x_, y_)`. -/
def decode_cell (width : Nat) (mi_max_cell : Int) : Except Fault (Int × Int) :=
  if wrapU32 (width : Int) = 0 then Except.error Fault.div_by_zero
  else
    let y_ := toInt32 (wrapU32 mi_max_cell / wrapU32 (width : Int))
    let x_ := toInt32 (wrapU32 (wrapU32 mi_max_cell - wrapU32 (wrapU32 y_ * wrapU32 (width : Int))))
    Except.ok (x_, y_)

/-! ## The selection step of `click_callback` (lines 104-114) -/

/-- Iteration `j` of the selection loop, lines 108-113, on the accumulator
`(mi_max_cell, mi_max)`. `w.states()[j]` is read first and `w.mi()[j]` only
for a free cell; the loop bound is `w.mi().size()`, so only the state read can
leave its vector. The assignment `mi_max_cell = j` converts the
`unsigned int` counter to `int`. -/
def select_step (states : List OccupancyState) (mi : List ℚ) (j : Nat) (acc : Int × ℚ) :
    Except Fault (Int × ℚ) :=
  match states[j]? with
  | none => Except.error Fault.out_of_bounds
  | some s =>
    if s = OccupancyState.free then
      match mi[j]? with
      | none => Except.error Fault.out_of_bounds
      | some m => if m > acc.2 then Except.ok (toInt32 (j : Int), m) else Except.ok acc
    else Except.ok acc

/-- The accumulator after the first `n` iterations of the selection loop,
started from `mi_max_cell = 0`, `mi_max = 0` (lines 105-106). -/
def select_loop (states : List OccupancyState) (mi : List ℚ) : Nat → Except Fault (Int × ℚ)
  | 0 => Except.ok (0, 0)
  | n + 1 =>
    match select_loop states mi n with
    | Except.error e => Except.error e
    | Except.ok acc => select_step states mi n acc

/-- The selection step, lines 105-114: the loop runs over the whole MI surface
and yields `(mi_max_cell, mi_max)`. The surfaces are those of the grid
wanderer, whose size is an `unsigned int`, so the counter `j` itself does not
wrap. -/
def select (states : List OccupancyState) (mi : List ℚ) : Except Fault (Int × ℚ) :=
  select_loop states mi mi.length

/-! ## The lookahead loop of `click_callback` (lines 97-139) -/

/-- Local state of the lookahead loop. `closest_dist_sq` is the square of
`closest_dist`: the code compares `dist = sqrt(d)` with `closest_dist`, both
non-negative, and `sqrt d < c` holds exactly when `d < c * c`, so the squares
decide every comparison the code makes. `closest` is `closest_x, closest_y`,
`none` while the two variables have not been written. `mi_points` is
`mi_points_msg.points`, `conditioned` the arguments of the `w.condition`
calls. -/
structure Lookahead where
  closest_dist_sq : ℚ
  closest : Option (Int × Int)
  mi_points : List (Int × Int)
  conditioned : List (Int × Int)
  deriving DecidableEq

/-- Line 120 without the `sqrt`: `(x - x_) * (x - x_) + (y - y_) * (y - y_)`
for start `(x, y)` and candidate `(x_, y_)`, the square of `dist`. -/
def dist_sq (x y : ℚ) (cand : Int × Int) : ℚ :=
  (x - (cand.1 : ℚ)) * (x - (cand.1 : ℚ)) + (y - (cand.2 : ℚ)) * (y - (cand.2 : ℚ))

/-- Lines 121-125: the comparison `dist < closest_dist` and the update of the
running closest candidate. -/
def closest_update (x y : ℚ) (closest_dist_sq : ℚ) (closest : Option (Int × Int))
    (cand : Int × Int) : ℚ × Option (Int × Int) :=
  if dist_sq x y cand < closest_dist_sq then (dist_sq x y cand, some cand)
  else (closest_dist_sq, closest)

/-- Lines 116-134 of one lookahead round, after the selection produced
`mi_max_cell`: decode the cell, update the closest candidate, record the point
for visualisation, condition on it. -/
def lookahead_round (width : Nat) (x y : ℚ) (st : Lookahead) (mi_max_cell : Int) :
    Except Fault Lookahead :=
  match decode_cell width mi_max_cell with
  | Except.error e => Except.error e
  | Except.ok cand =>
    let upd := closest_update x y st.closest_dist_sq st.closest cand
    Except.ok
      { closest_dist_sq := upd.1
        closest := upd.2
        mi_points := st.mi_points ++ [cand]
        conditioned := st.conditioned ++ [cand] }

/-- State at loop entry, lines 95-99: `mi_points_msg.points.clear()`,
`closest_dist = map_info.height * map_info.width` (an `unsigned int` product
converted to `double`), `closest_x, closest_y` declared without a value. -/
def lookahead_init (info : MapMetaData) : Lookahead :=
  { closest_dist_sq :=
      ((wrapU32 ((info.height : Int) * (info.width : Int)) : Int) : ℚ)
        * ((wrapU32 ((info.height : Int) * (info.width : Int)) : Int) : ℚ)
    closest := none
    mi_points := []
    conditioned := [] }

/-- The closest-candidate bookkeeping of the lookahead loop alone: lines
121-125 applied to the decoded candidates of the rounds, in order. -/
def closest_scan (x y : ℚ) : ℚ × Option (Int × Int) → List (Int × Int) → ℚ × Option (Int × Int)
  | acc, [] => acc
  | acc, cand :: rest => closest_scan x y (closest_update x y acc.1 acc.2 cand) rest

/-- The lookahead loop, lines 100-135. Each element of `rounds` is the pair of
surfaces `(w.states(), w.mi())` the grid wanderer holds after `compute_mi()`
in that round; the list has one element per round actually run. -/
def lookahead_loop (info : MapMetaData) (x y : ℚ) :
    Lookahead → List (List OccupancyState × List ℚ) → Except Fault Lookahead
  | st, [] => Except.ok st
  | st, r :: rest =>
    match select r.1 r.2 with
    | Except.error e => Except.error e
    | Except.ok sel =>
      match lookahead_round info.width x y st sel.1 with
      | Except.error e => Except.error e
      | Except.ok st1 => lookahead_loop info x y st1 rest

/-- Lines 137-139: `x = closest_x; y = closest_y;` after the lookahead loop.
Reading the two variables when no round wrote them is a fault. -/
def next_position (info : MapMetaData) (x y : ℚ)
    (rounds : List (List OccupancyState × List ℚ)) : Except Fault (ℚ × ℚ) :=
  match lookahead_loop info x y (lookahead_init info) rounds with
  | Except.error e => Except.error e
  | Except.ok st =>
    match st.closest with
    | none => Except.error Fault.uninitialized
    | some c => Except.ok ((c.1 : ℚ), (c.2 : ℚ))

/-! ## `compute_mi` (mi_visualizer.cpp, lines 145-155) -/

/-- Calls that `compute_mi` makes on the grid wanderer and on `draw_map`. -/
inductive SweepCall
  | reset_mi
  | accrue_mi (spatial_fraction angular_fraction : ℚ)
  | draw_map
  deriving DecidableEq

/-- Calls of the first `n` iterations of the inner loop (lines 149-151) in
angular iteration `i`: iteration `j` calls
`accrue_mi(j/(double)mi_spatial_steps, i/(double)mi_angular_steps)`. -/
def spatial_calls (mi_angular_steps mi_spatial_steps : Int) (i : Nat) : Nat → List SweepCall
  | 0 => []
  | n + 1 =>
    spatial_calls mi_angular_steps mi_spatial_steps i n ++
      [SweepCall.accrue_mi ((n : ℚ) / (mi_spatial_steps : ℚ)) ((i : ℚ) / (mi_angular_steps : ℚ))]

/-- Calls of the first `n` iterations of the outer loop (lines 148-154),
together with a flag telling whether the loop has left through `break`.
`ok i` is what `ros::ok()` answers at the end of angular iteration `i`. The
inner loop runs while `j < mi_spatial_steps`, that is `mi_spatial_steps.toNat`
times. -/
def angular_calls (mi_angular_steps mi_spatial_steps : Int) (ok : Nat → Bool) :
    Nat → List SweepCall × Bool
  | 0 => ([], false)
  | n + 1 =>
    let before := angular_calls mi_angular_steps mi_spatial_steps ok n
    if before.2 then before
    else
      (before.1 ++ spatial_calls mi_angular_steps mi_spatial_steps n mi_spatial_steps.toNat
          ++ [SweepCall.draw_map],
        !(ok n))

/-- The sweep `compute_mi`: `reset_mi`, then the outer loop, which runs while
`i < mi_angular_steps`. -/
def compute_mi (mi_angular_steps mi_spatial_steps : Int) (ok : Nat → Bool) : List SweepCall :=
  SweepCall.reset_mi ::
    (angular_calls mi_angular_steps mi_spatial_steps ok mi_angular_steps.toNat).1

/-- The arguments of the `accrue_mi` calls of a trace, in order. -/
def accrue_args : List SweepCall → List (ℚ × ℚ)
  | [] => []
  | SweepCall.accrue_mi s a :: rest => (s, a) :: accrue_args rest
  | _ :: rest => accrue_args rest

/-! ## MI normalisation in `draw_map` -/

/-- Value of `*std::max_element(begin, end)`; `none` for an empty range, where
the returned iterator is `end`. -/
def max_element : List ℚ → Option ℚ
  | [] => none
  | a :: rest => some (rest.foldl (fun largest v => if largest < v then v else largest) a)

/-- Conversion of a `double` to `int8_t`: truncation toward zero, defined only
when the truncated value fits. -/
def to_int8 (q : ℚ) : Except Fault Int :=
  let z : Int := if 0 ≤ q then ⌊q⌋ else ⌈q⌉
  if -128 ≤ z ∧ z ≤ 127 then Except.ok z else Except.error Fault.int8_range

/-- The expression `100 * (1 - w.mi()[i]/(*mi_max))` stored into an `int8_t`
(mi_visualizer.cpp line 163, occupancy_grid_mi.cpp lines 157-159): a `double`
division, a `double` subtraction from 1, a `double` multiplication by 100,
then the conversion. Neither file tests the divisor. -/
def mi_display (mi_i : ℚ) (mi_max : Option ℚ) : Except Fault Int :=
  match mi_max with
  | none => Except.error Fault.out_of_bounds
  | some m =>
    if m = 0 then Except.error Fault.div_by_zero
    else to_int8 (round_double (100 * round_double (1 - round_double (mi_i / m))))

/-- The first `n` iterations of the normalisation loop: iteration `i` reads
`mi[i]` and stores its display value. -/
def draw_mi_loop (mi : List ℚ) (mi_max : Option ℚ) : Nat → Except Fault (List Int)
  | 0 => Except.ok []
  | n + 1 =>
    match draw_mi_loop mi mi_max n with
    | Except.error e => Except.error e
    | Except.ok done =>
      match mi[n]? with
      | none => Except.error Fault.out_of_bounds
      | some v =>
        match mi_display v mi_max with
        | Except.error e => Except.error e
        | Except.ok d => Except.ok (done ++ [d])

/-- The MI part of `MutualInformationVisualizer::draw_map`, lines 159-164:
the message has `height * width` cells, `mi_max` is an iterator that is only
dereferenced inside the loop. -/
def MutualInformationVisualizer.draw_map_mi (info : MapMetaData) (mi : List ℚ) :
    Except Fault (List Int) :=
  draw_mi_loop mi (max_element mi)
    (wrapU32 ((info.height : Int) * (info.width : Int))).toNat

/-- The MI part of `OccupancyGridMI::draw_map`, lines 153-160: the message has
`mi().size()` cells and the maximum is dereferenced before the loop. -/
def OccupancyGridMI.draw_map_mi (mi : List ℚ) : Except Fault (List Int) :=
  match max_element mi with
  | none => Except.error Fault.out_of_bounds
  | some m => draw_mi_loop mi (some m) mi.length

/-! ## `OccupancyGridMI::map_callback` (occupancy_grid_mi.cpp, lines 47-76) -/

/-- The members of `OccupancyGridMI` that its `map_callback` writes. -/
structure OccupancyGridMI.State where
  map_info : MapMetaData
  map_header : String
  vacancy : List ℚ
  deriving DecidableEq

/-- Body of the conversion loop, lines 55-61. `pow` stands for `std::pow`. -/
def OccupancyGridMI.vacancy_value (pow : ℚ → ℚ → ℚ) (resolution : ℚ) (v : Int) : ℚ :=
  let vacancy : ℚ := 1 - (v : ℚ) / 99
  let clipped : ℚ := if vacancy < 0 ∨ vacancy > 1 then 0 else vacancy
  pow clipped resolution

/-- The first `n` iterations of the loop of lines 54-65; iteration `i` reads
`map_msg.data[i]`. -/
def OccupancyGridMI.convert_vacancy (pow : ℚ → ℚ → ℚ) (resolution : ℚ) (data : List Int) :
    Nat → Except Fault (List ℚ)
  | 0 => Except.ok []
  | n + 1 =>
    match OccupancyGridMI.convert_vacancy pow resolution data n with
    | Except.error e => Except.error e
    | Except.ok done =>
      match data[n]? with
      | none => Except.error Fault.out_of_bounds
      | some v => Except.ok (done ++ [OccupancyGridMI.vacancy_value pow resolution v])

/-- The state-writing part of `OccupancyGridMI::map_callback`: lines 49-50
store metadata and header, line 53 sizes the vacancy vector by the
`unsigned int` product `height * width`. -/
def OccupancyGridMI.map_callback (pow : ℚ → ℚ → ℚ) (_old : OccupancyGridMI.State)
    (map_msg : OccupancyGrid) : Except Fault OccupancyGridMI.State :=
  let size := (wrapU32 ((map_msg.info.height : Int) * (map_msg.info.width : Int))).toNat
  match OccupancyGridMI.convert_vacancy pow map_msg.info.resolution map_msg.data size with
  | Except.error e => Except.error e
  | Except.ok vacancy =>
    Except.ok { map_info := map_msg.info, map_header := map_msg.frame_id, vacancy := vacancy }

/-! ## Theorems -/

/-! ### Binary64 rounding -/

theorem round_half_even_cases (q : ℚ) :
    round_half_even q = ⌊q⌋ ∨ round_half_even q = ⌊q⌋ + 1 := by
  unfold round_half_even
  split_ifs <;> simp

theorem round_half_even_int (n : Int) : round_half_even (n : ℚ) = n := by
  unfold round_half_even
  simp

theorem round_half_even_mono {x y : ℚ} (h : x ≤ y) : round_half_even x ≤ round_half_even y := by
  have hfx := Int.floor_le x
  have hfy := Int.floor_le y
  have hlx := Int.lt_floor_add_one x
  have hly := Int.lt_floor_add_one y
  have hmono : ⌊x⌋ ≤ ⌊y⌋ := Int.floor_mono h
  rcases lt_or_eq_of_le hmono with hlt | heq
  · have h1 : round_half_even x ≤ ⌊x⌋ + 1 := by
      rcases round_half_even_cases x with h | h <;> omega
    have h2 : ⌊y⌋ ≤ round_half_even y := by
      rcases round_half_even_cases y with h | h <;> omega
    omega
  · unfold round_half_even
    rw [← heq]
    have hfrac : x - (⌊x⌋ : ℚ) ≤ y - (⌊x⌋ : ℚ) := by linarith
    by_cases hx1 : x - (⌊x⌋ : ℚ) < 1 / 2
    · rw [if_pos hx1]
      split_ifs <;> omega
    · rw [if_neg hx1]
      have hy1 : ¬ (y - (⌊x⌋ : ℚ) < 1 / 2) := by
        intro hc; exact hx1 (lt_of_le_of_lt hfrac hc)
      rw [if_neg hy1]
      by_cases hx2 : 1 / 2 < x - (⌊x⌋ : ℚ)
      · have hy2 : 1 / 2 < y - (⌊x⌋ : ℚ) := lt_of_lt_of_le hx2 hfrac
        rw [if_pos hx2, if_pos hy2]
      · rw [if_neg hx2]
        split_ifs <;> omega

theorem round_half_even_near (x : ℚ) (n : Int) (h1 : (n : ℚ) - 1 / 2 < x)
    (h2 : x < (n : ℚ) + 1 / 2) : round_half_even x = n := by
  have hfx := Int.floor_le x
  have hlx := Int.lt_floor_add_one x
  by_cases hge : (n : ℚ) ≤ x
  · have hf : ⌊x⌋ = n := Int.floor_eq_iff.mpr ⟨hge, by linarith⟩
    unfold round_half_even
    rw [hf, if_pos (by linarith)]
  · have hf : ⌊x⌋ = n - 1 := Int.floor_eq_iff.mpr ⟨by push_cast; linarith, by push_cast; linarith⟩
    unfold round_half_even
    rw [hf]
    have hc : ¬ (x - ((n - 1 : Int) : ℚ) < 1 / 2) := by push_cast; linarith
    have hc2 : 1 / 2 < x - ((n - 1 : Int) : ℚ) := by push_cast; linarith
    rw [if_neg hc, if_pos hc2]
    omega

theorem round_half_even_tie (n : Int) :
    round_half_even ((n : ℚ) + 1 / 2) = if n % 2 = 0 then n else n + 1 := by
  have hf : ⌊(n : ℚ) + 1 / 2⌋ = n := Int.floor_eq_iff.mpr ⟨by linarith, by linarith⟩
  unfold round_half_even
  rw [hf]
  have h1 : ¬ ((n : ℚ) + 1 / 2 - (n : ℚ) < 1 / 2) := by norm_num
  have h2 : ¬ (1 / 2 < (n : ℚ) + 1 / 2 - (n : ℚ)) := by norm_num
  rw [if_neg h1, if_neg h2]


theorem two_zpow_pos (e : Int) : (0 : ℚ) < 2 ^ e := zpow_pos (by norm_num) e

theorem two_zpow_mono {a b : Int} (h : a ≤ b) : (2 : ℚ) ^ a ≤ 2 ^ b :=
  zpow_le_zpow_right₀ (by norm_num) h

theorem binary_exponent_eq (q : ℚ) (e : Int) (h1 : (2 : ℚ) ^ e ≤ q) (h2 : q < 2 ^ (e + 1)) :
    Int.log 2 q = e := by
  have hq : 0 < q := lt_of_lt_of_le (two_zpow_pos e) h1
  apply le_antisymm
  · have : Int.log 2 q < e + 1 := by
      rw [← Int.lt_zpow_iff_log_lt (by norm_num) hq]
      simpa using h2
    omega
  · rw [← Int.zpow_le_iff_le_log (by norm_num) hq]
    simpa using h1

theorem lt_top_of_exponent (q : ℚ) : q < 2 ^ (max (Int.log 2 q) (-1022) + 1) := by
  have h := Int.lt_zpow_succ_log_self (b := 2) (by norm_num) q
  have h' : q < (2 : ℚ) ^ (Int.log 2 q + 1) := by simpa using h
  exact lt_of_lt_of_le h' (two_zpow_mono (by omega))

theorem round_magnitude_nonneg (q : ℚ) (hq : 0 ≤ q) : 0 ≤ round_magnitude q := by
  unfold round_magnitude
  have hu := two_zpow_pos (ulp_exponent q)
  have h0 : (0 : ℚ) ≤ q / 2 ^ ulp_exponent q := div_nonneg hq (le_of_lt hu)
  have h1 : round_half_even ((0 : Int) : ℚ) ≤ round_half_even (q / 2 ^ ulp_exponent q) :=
    round_half_even_mono (by simpa using h0)
  rw [round_half_even_int] at h1
  have h2 : (0 : ℚ) ≤ (round_half_even (q / 2 ^ ulp_exponent q) : ℚ) := by exact_mod_cast h1
  exact mul_nonneg h2 (le_of_lt hu)

theorem round_magnitude_le_top (q : ℚ) :
    round_magnitude q ≤ 2 ^ (max (Int.log 2 q) (-1022) + 1) := by
  unfold round_magnitude
  have hu := two_zpow_pos (ulp_exponent q)
  have hlt := lt_top_of_exponent q
  have hsplit : (2 : ℚ) ^ (max (Int.log 2 q) (-1022) + 1) = 2 ^ (53 : Int) * 2 ^ ulp_exponent q := by
    rw [← zpow_add₀ (by norm_num : (2 : ℚ) ≠ 0)]
    congr 1
    unfold ulp_exponent
    omega
  rw [hsplit] at hlt ⊢
  have h0 : q / 2 ^ ulp_exponent q ≤ (((2 : Int) ^ (53 : Nat) : Int) : ℚ) := by
    rw [div_le_iff₀ hu]
    have : (((2 : Int) ^ (53 : Nat) : Int) : ℚ) = (2 : ℚ) ^ (53 : Int) := by norm_num
    rw [this]
    exact le_of_lt hlt
  have h1 := round_half_even_mono h0
  rw [round_half_even_int] at h1
  have h2 : (round_half_even (q / 2 ^ ulp_exponent q) : ℚ) ≤ (2 : ℚ) ^ (53 : Int) := by
    have : ((round_half_even (q / 2 ^ ulp_exponent q) : Int) : ℚ)
        ≤ (((2 : Int) ^ (53 : Nat) : Int) : ℚ) := by exact_mod_cast h1
    have h3 : (((2 : Int) ^ (53 : Nat) : Int) : ℚ) = (2 : ℚ) ^ (53 : Int) := by norm_num
    rw [h3] at this
    exact this
  exact mul_le_mul_of_nonneg_right h2 (le_of_lt hu)

theorem round_magnitude_ge_bot (q : ℚ) (hq : 0 < q) (hn : -1022 ≤ Int.log 2 q) :
    (2 : ℚ) ^ (Int.log 2 q) ≤ round_magnitude q := by
  unfold round_magnitude
  have hu := two_zpow_pos (ulp_exponent q)
  have hle : (2 : ℚ) ^ (Int.log 2 q) ≤ q := by
    have := Int.zpow_log_le_self (b := 2) (by norm_num) hq
    simpa using this
  have hsplit : (2 : ℚ) ^ (Int.log 2 q) = 2 ^ (52 : Int) * 2 ^ ulp_exponent q := by
    rw [← zpow_add₀ (by norm_num : (2 : ℚ) ≠ 0)]
    congr 1
    unfold ulp_exponent
    omega
  rw [hsplit] at hle ⊢
  have h0 : (((2 : Int) ^ (52 : Nat) : Int) : ℚ) ≤ q / 2 ^ ulp_exponent q := by
    rw [le_div_iff₀ hu]
    have : (((2 : Int) ^ (52 : Nat) : Int) : ℚ) = (2 : ℚ) ^ (52 : Int) := by norm_num
    rw [this]
    exact hle
  have h1 := round_half_even_mono h0
  rw [round_half_even_int] at h1
  have h2 : (2 : ℚ) ^ (52 : Int) ≤ (round_half_even (q / 2 ^ ulp_exponent q) : ℚ) := by
    have : (((2 : Int) ^ (52 : Nat) : Int) : ℚ)
        ≤ ((round_half_even (q / 2 ^ ulp_exponent q) : Int) : ℚ) := by exact_mod_cast h1
    have h3 : (((2 : Int) ^ (52 : Nat) : Int) : ℚ) = (2 : ℚ) ^ (52 : Int) := by norm_num
    rw [h3] at this
    exact this
  exact mul_le_mul_of_nonneg_right h2 (le_of_lt hu)

theorem round_magnitude_zero : round_magnitude 0 = 0 := by
  unfold round_magnitude
  simp [round_half_even]

theorem round_magnitude_mono {x y : ℚ} (hx : 0 ≤ x) (h : x ≤ y) :
    round_magnitude x ≤ round_magnitude y := by
  rcases eq_or_lt_of_le hx with h0 | hpos
  · rw [← h0, round_magnitude_zero]
    exact round_magnitude_nonneg y (le_trans hx h)
  · have hlog : Int.log 2 x ≤ Int.log 2 y := Int.log_mono_right hpos h
    have hE : max (Int.log 2 x) (-1022) ≤ max (Int.log 2 y) (-1022) := max_le_max hlog (le_refl _)
    rcases eq_or_lt_of_le hE with heq | hlt
    · have hu : ulp_exponent x = ulp_exponent y := by unfold ulp_exponent; rw [heq]
      unfold round_magnitude
      rw [hu]
      have hpu := two_zpow_pos (ulp_exponent y)
      have hdiv : x / 2 ^ ulp_exponent y ≤ y / 2 ^ ulp_exponent y :=
        div_le_div_of_nonneg_right h (le_of_lt hpu)
      have h1 := round_half_even_mono hdiv
      have h2 : ((round_half_even (x / 2 ^ ulp_exponent y) : Int) : ℚ)
          ≤ ((round_half_even (y / 2 ^ ulp_exponent y) : Int) : ℚ) := by exact_mod_cast h1
      exact mul_le_mul_of_nonneg_right h2 (le_of_lt hpu)
    · have hynorm : -1022 ≤ Int.log 2 y := by
        by_contra hc
        have : max (Int.log 2 y) (-1022) = -1022 := max_eq_right (by omega)
        rw [this] at hlt
        have := le_max_right (Int.log 2 x) (-1022)
        omega
      have hymax : max (Int.log 2 y) (-1022) = Int.log 2 y := max_eq_left hynorm
      rw [hymax] at hlt
      calc round_magnitude x ≤ 2 ^ (max (Int.log 2 x) (-1022) + 1) := round_magnitude_le_top x
        _ ≤ 2 ^ (Int.log 2 y) := two_zpow_mono (by omega)
        _ ≤ round_magnitude y := round_magnitude_ge_bot y (lt_of_lt_of_le hpos h) hynorm

/-- Rounding to binary64 is monotone. -/
theorem round_double_mono {x y : ℚ} (h : x ≤ y) : round_double x ≤ round_double y := by
  unfold round_double
  by_cases hx : x < 0
  · by_cases hy : y < 0
    · rw [if_pos hx, if_pos hy]
      have := round_magnitude_mono (le_of_lt (neg_pos.mpr hy)) (neg_le_neg h)
      linarith
    · rw [if_pos hx, if_neg hy]
      have h1 := round_magnitude_nonneg (-x) (le_of_lt (neg_pos.mpr hx))
      have h2 := round_magnitude_nonneg y (not_lt.mp hy)
      linarith
  · have hy : ¬ y < 0 := fun hc => hx (lt_of_le_of_lt h hc)
    rw [if_neg hx, if_neg hy]
    exact round_magnitude_mono (not_lt.mp hx) h


theorem ulp_exponent_eq (q : ℚ) (e : Int) (h1 : (2 : ℚ) ^ e ≤ q) (h2 : q < 2 ^ (e + 1))
    (he : -1022 ≤ e) : ulp_exponent q = e - 52 := by
  unfold ulp_exponent
  rw [binary_exponent_eq q e h1 h2, max_eq_left he]

/-- Evaluation of `round_magnitude` at a value in the binade `[2^e, 2^(e+1))`
that lies strictly within half a spacing of the multiple `n`. -/
theorem round_magnitude_near (q : ℚ) (e n : Int) (h1 : (2 : ℚ) ^ e ≤ q) (h2 : q < 2 ^ (e + 1))
    (he : -1022 ≤ e) (hn1 : (n : ℚ) - 1 / 2 < q / 2 ^ (e - 52))
    (hn2 : q / 2 ^ (e - 52) < (n : ℚ) + 1 / 2) :
    round_magnitude q = (n : ℚ) * 2 ^ (e - 52) := by
  unfold round_magnitude
  rw [ulp_exponent_eq q e h1 h2 he, round_half_even_near _ n hn1 hn2]

/-- Evaluation of `round_magnitude` at a tie above an even multiple. -/
theorem round_magnitude_tie (q : ℚ) (e n : Int) (h1 : (2 : ℚ) ^ e ≤ q) (h2 : q < 2 ^ (e + 1))
    (he : -1022 ≤ e) (htie : q / 2 ^ (e - 52) = (n : ℚ) + 1 / 2) (heven : n % 2 = 0) :
    round_magnitude q = (n : ℚ) * 2 ^ (e - 52) := by
  unfold round_magnitude
  rw [ulp_exponent_eq q e h1 h2 he, htie, round_half_even_tie, if_pos heven]

/-- Evaluation of `round_magnitude` at a tie above an odd multiple. -/
theorem round_magnitude_tie_odd (q : ℚ) (e n : Int) (h1 : (2 : ℚ) ^ e ≤ q)
    (h2 : q < 2 ^ (e + 1)) (he : -1022 ≤ e) (htie : q / 2 ^ (e - 52) = (n : ℚ) + 1 / 2)
    (hodd : n % 2 = 1) :
    round_magnitude q = ((n + 1 : Int) : ℚ) * 2 ^ (e - 52) := by
  unfold round_magnitude
  rw [ulp_exponent_eq q e h1 h2 he, htie, round_half_even_tie, if_neg (by omega)]

theorem round_double_of_nonneg (q : ℚ) (hq : 0 ≤ q) : round_double q = round_magnitude q := by
  unfold round_double
  rw [if_neg (not_lt.mpr hq)]

theorem round_double_zero : round_double 0 = 0 := by
  rw [round_double_of_nonneg 0 (le_refl _), round_magnitude_zero]

theorem round_double_half : round_double (1 / 2) = 1 / 2 := by
  rw [round_double_of_nonneg _ (by norm_num),
    round_magnitude_near (1 / 2) (-1) (2 ^ 52) (by norm_num) (by norm_num) (by norm_num)
      (by norm_num) (by norm_num)]
  norm_num

theorem round_double_one : round_double 1 = 1 := by
  rw [round_double_of_nonneg _ (by norm_num),
    round_magnitude_near 1 0 (2 ^ 52) (by norm_num) (by norm_num) (by norm_num)
      (by norm_num) (by norm_num)]
  norm_num

theorem round_double_quarter : round_double (1 / 4) = 1 / 4 := by
  rw [round_double_of_nonneg _ (by norm_num),
    round_magnitude_near (1 / 4) (-2) (2 ^ 52) (by norm_num) (by norm_num) (by norm_num)
      (by norm_num) (by norm_num)]
  norm_num

theorem round_double_three_quarters : round_double (3 / 4) = 3 / 4 := by
  rw [round_double_of_nonneg _ (by norm_num),
    round_magnitude_near (3 / 4) (-1) (3 * 2 ^ 51) (by norm_num) (by norm_num) (by norm_num)
      (by norm_num) (by norm_num)]
  norm_num

theorem round_double_hundred : round_double 100 = 100 := by
  rw [round_double_of_nonneg _ (by norm_num),
    round_magnitude_near 100 6 (100 * 2 ^ 46) (by norm_num) (by norm_num) (by norm_num)
      (by norm_num) (by norm_num)]
  norm_num

theorem round_double_47 :
    round_double (47 / 100) = 8466767299456532 * 2 ^ (-54 : Int) := by
  rw [round_double_of_nonneg _ (by norm_num),
    round_magnitude_near (47 / 100) (-2) 8466767299456532 (by norm_num) (by norm_num)
      (by norm_num) (by norm_num) (by norm_num)]
  norm_num

theorem round_double_lo :
    round_double (1 / 2 - 1080863910568919 / 2 ^ 55) = 8466767299456532 * 2 ^ (-54 : Int) := by
  rw [round_double_of_nonneg _ (by norm_num),
    round_magnitude_tie (1 / 2 - 1080863910568919 / 2 ^ 55) (-2) 8466767299456532
      (by norm_num) (by norm_num) (by norm_num) (by norm_num) (by norm_num)]
  norm_num

theorem exponent_of_rounded (r : ℚ) (E : Int) (hr : 0 < r) (hE : -1022 ≤ E)
    (htop : r < 2 ^ (E + 1)) (hbot : E = -1022 ∨ (2 : ℚ) ^ E ≤ r) :
    ulp_exponent r = E - 52 := by
  by_cases hge : (2 : ℚ) ^ E ≤ r
  · exact ulp_exponent_eq r E hge htop hE
  · have hE' : E = -1022 := by
      rcases hbot with h | h
      · exact h
      · exact absurd h hge
    have hlog : Int.log 2 r < E := by
      rw [← Int.lt_zpow_iff_log_lt (by norm_num) hr]
      simpa using not_le.mp hge
    unfold ulp_exponent
    rw [max_eq_right (by omega), hE']

theorem round_magnitude_idem (q : ℚ) (hq : 0 ≤ q) :
    round_magnitude (round_magnitude q) = round_magnitude q := by
  have hr0 := round_magnitude_nonneg q hq
  rcases eq_or_lt_of_le hr0 with hzero | hpos
  · rw [← hzero, round_magnitude_zero]
  · have hqpos : 0 < q := by
      rcases eq_or_lt_of_le hq with h | h
      · rw [← h, round_magnitude_zero] at hpos
        exact absurd hpos (lt_irrefl 0)
      · exact h
    have hE : -1022 ≤ max (Int.log 2 q) (-1022) := le_max_right _ _
    have htop := round_magnitude_le_top q
    have hu := two_zpow_pos (ulp_exponent q)
    have hue : ulp_exponent q = max (Int.log 2 q) (-1022) - 52 := rfl
    have hbot : max (Int.log 2 q) (-1022) = -1022
        ∨ (2 : ℚ) ^ (max (Int.log 2 q) (-1022)) ≤ round_magnitude q := by
      by_cases hn : -1022 ≤ Int.log 2 q
      · right
        rw [max_eq_left hn]
        exact round_magnitude_ge_bot q hqpos hn
      · left
        exact max_eq_right (by omega)
    rcases eq_or_lt_of_le htop with heq | hlt
    · -- the rounding reached the next power of two
      have hnear := round_magnitude_near (round_magnitude q) (max (Int.log 2 q) (-1022) + 1)
        (2 ^ 52) (by rw [heq]) (by rw [heq]; exact zpow_lt_zpow_right₀ (by norm_num) (by omega))
        (by omega)
        (by
          rw [heq, ← zpow_sub₀ (by norm_num : (2 : ℚ) ≠ 0)]
          have : max (Int.log 2 q) (-1022) + 1 - (max (Int.log 2 q) (-1022) + 1 - 52) = 52 := by
            omega
          rw [this]
          norm_num)
        (by
          rw [heq, ← zpow_sub₀ (by norm_num : (2 : ℚ) ≠ 0)]
          have : max (Int.log 2 q) (-1022) + 1 - (max (Int.log 2 q) (-1022) + 1 - 52) = 52 := by
            omega
          rw [this]
          norm_num)
      rw [hnear, heq]
      have : (((2 : Int) ^ 52 : Int) : ℚ) = (2 : ℚ) ^ (52 : Int) := by norm_num
      rw [this, ← zpow_add₀ (by norm_num : (2 : ℚ) ≠ 0)]
      congr 1
      omega
    · have hexp := exponent_of_rounded (round_magnitude q) (max (Int.log 2 q) (-1022)) hpos hE
        hlt hbot
      have hsame : ulp_exponent (round_magnitude q) = ulp_exponent q := by rw [hexp, hue]
      have hquot : round_magnitude q / 2 ^ ulp_exponent q
          = ((round_half_even (q / 2 ^ ulp_exponent q) : Int) : ℚ) := by
        unfold round_magnitude
        field_simp
      have hdef : round_magnitude (round_magnitude q)
          = (round_half_even (round_magnitude q / 2 ^ ulp_exponent (round_magnitude q)) : ℚ)
            * 2 ^ ulp_exponent (round_magnitude q) := rfl
      rw [hdef, hsame, hquot, round_half_even_int]
      rfl

/-- A value that is a double is returned unchanged by the rounding: rounding
twice is rounding once. -/
theorem round_double_idem (q : ℚ) : round_double (round_double q) = round_double q := by
  by_cases hq : q < 0
  · have hp : 0 ≤ -q := le_of_lt (neg_pos.mpr hq)
    have hr0 := round_magnitude_nonneg (-q) hp
    have h1 : round_double q = -round_magnitude (-q) := by
      unfold round_double
      rw [if_pos hq]
    rw [h1]
    rcases eq_or_lt_of_le hr0 with hzero | hpos
    · rw [← hzero]
      norm_num [round_double_zero]
    · unfold round_double
      rw [if_pos (neg_neg_of_pos hpos), neg_neg, round_magnitude_idem _ hp]
  · have hp : 0 ≤ q := not_lt.mp hq
    rw [round_double_of_nonneg q hp,
      round_double_of_nonneg _ (round_magnitude_nonneg q hp), round_magnitude_idem q hp]

/-! ### Classification -/


theorem convert_states_ok (t : ℚ) (data : List Int) (n : Nat) (hn : n ≤ data.length) :
    convert_states t data n = Except.ok ((data.take n).map (classify t)) := by
  induction n with
  | zero => simp [convert_states]
  | succ k ih =>
    have hk : k < data.length := hn
    simp only [convert_states, ih (Nat.le_of_lt hk), List.getElem?_eq_getElem hk]
    rw [List.take_succ, List.getElem?_eq_getElem hk]
    simp only [Option.toList_some, List.map_append, List.map_cons, List.map_nil]

theorem round_magnitude_pos (p : ℚ) (hp : (2 : ℚ) ^ (-1022 : Int) ≤ p) : 0 < round_magnitude p := by
  have hpos : 0 < p := lt_of_lt_of_le (two_zpow_pos _) hp
  have hlog : -1022 ≤ Int.log 2 p := by
    rw [← Int.zpow_le_iff_le_log (by norm_num) hpos]
    simpa using hp
  exact lt_of_lt_of_le (two_zpow_pos _) (round_magnitude_ge_bot p hpos hlog)

theorem round_double_percent_neg (v : Int) : round_double ((v : ℚ) / 100) < 0 ↔ v < 0 := by
  constructor
  · intro h
    by_contra hc
    have hv : (0 : ℚ) ≤ (v : ℚ) := by exact_mod_cast (not_lt.mp hc)
    have hq : (0 : ℚ) ≤ (v : ℚ) / 100 := div_nonneg hv (by norm_num)
    rw [round_double_of_nonneg _ hq] at h
    exact absurd (round_magnitude_nonneg _ hq) (not_le.mpr h)
  · intro h
    have hv : (v : ℚ) ≤ -1 := by exact_mod_cast (Int.le_sub_one_of_lt h)
    have hq : (v : ℚ) / 100 < 0 := by linarith
    unfold round_double
    rw [if_pos hq]
    have hp : (2 : ℚ) ^ (-1022 : Int) ≤ -((v : ℚ) / 100) := by
      have h1 : (2 : ℚ) ^ (-1022 : Int) ≤ 2 ^ (-7 : Int) := two_zpow_mono (by norm_num)
      have h2 : (2 : ℚ) ^ (-7 : Int) ≤ -((v : ℚ) / 100) := by
        norm_num
        linarith
      exact le_trans h1 h2
    have := round_magnitude_pos _ hp
    linarith

/-- The chain of `classify` with its first test read on the integer value. -/
theorem classify_chain (t : ℚ) (v : Int) :
    classify t v =
      (if v < 0 then OccupancyState.unknown
       else if round_double ((v : ℚ) / 100) < round_double (1 / 2 - round_double t) then OccupancyState.free
       else if round_double ((v : ℚ) / 100) > round_double (1 / 2 + round_double t) then
         OccupancyState.occupied
       else OccupancyState.unknown) := by
  unfold classify
  simp only [round_double_percent_neg]

theorem lt_of_round_double_lt {x y : ℚ} (h : round_double x < round_double y) : x < y := by
  by_contra hc
  exact absurd (round_double_mono (not_lt.mp hc)) (not_le.mpr h)

/-- C1, amended: for every raw value v and every threshold T held by the
`double` member `unknown_threshold` (`round_double t` below), map_callback
classifies the cell unknown if v < 0, otherwise free if v/100 < 0.5 - T,
otherwise occupied if v/100 > 0.5 + T, otherwise unknown, each comparison
being made between the binary64 results of the division, the subtraction and
the addition. A cell classified free has v/100 < 0.5 - T exactly and a cell
classified occupied has v/100 > 0.5 + T exactly (the converses fail within
one rounding of a bound). For T >= 0 the three classes are characterised by
disjoint conditions on the rounded values covering every v, the free and
occupied conditions never hold together, and the exact boundary values
v/100 = 0.5 - T and v/100 = 0.5 + T are classified unknown. -/
theorem classify_three_way (t : ℚ) (v : Int) :
    classify t v =
        (if v < 0 then OccupancyState.unknown
         else if round_double ((v : ℚ) / 100) < round_double (1 / 2 - round_double t) then
           OccupancyState.free
         else if round_double ((v : ℚ) / 100) > round_double (1 / 2 + round_double t) then
           OccupancyState.occupied
         else OccupancyState.unknown)
      ∧ (classify t v = OccupancyState.free → 0 ≤ v ∧ (v : ℚ) / 100 < 1 / 2 - round_double t)
      ∧ (classify t v = OccupancyState.occupied → 0 ≤ v ∧ (v : ℚ) / 100 > 1 / 2 + round_double t)
      ∧ (0 ≤ round_double t →
          (classify t v = OccupancyState.free ↔
            0 ≤ v ∧ round_double ((v : ℚ) / 100) < round_double (1 / 2 - round_double t))
        ∧ (classify t v = OccupancyState.occupied ↔
            0 ≤ v ∧ round_double ((v : ℚ) / 100) > round_double (1 / 2 + round_double t))
        ∧ (classify t v = OccupancyState.unknown ↔
            v < 0 ∨ (round_double (1 / 2 - round_double t) ≤ round_double ((v : ℚ) / 100)
              ∧ round_double ((v : ℚ) / 100) ≤ round_double (1 / 2 + round_double t)))
        ∧ ¬ (round_double ((v : ℚ) / 100) < round_double (1 / 2 - round_double t)
              ∧ round_double ((v : ℚ) / 100) > round_double (1 / 2 + round_double t))
        ∧ ((v : ℚ) / 100 = 1 / 2 - round_double t → classify t v = OccupancyState.unknown)
        ∧ ((v : ℚ) / 100 = 1 / 2 + round_double t → classify t v = OccupancyState.unknown)) := by
  have hchain := classify_chain t v
  refine ⟨hchain, ?_, ?_, ?_⟩
  · intro hfree
    rw [hchain] at hfree
    by_cases h0 : v < 0
    · rw [if_pos h0] at hfree; cases hfree
    · rw [if_neg h0] at hfree
      by_cases h1 : round_double ((v : ℚ) / 100) < round_double (1 / 2 - round_double t)
      · exact ⟨not_lt.mp h0, lt_of_round_double_lt h1⟩
      · rw [if_neg h1] at hfree
        by_cases h2 : round_double ((v : ℚ) / 100) > round_double (1 / 2 + round_double t)
        · rw [if_pos h2] at hfree; cases hfree
        · rw [if_neg h2] at hfree; cases hfree
  · intro hocc
    rw [hchain] at hocc
    by_cases h0 : v < 0
    · rw [if_pos h0] at hocc; cases hocc
    · rw [if_neg h0] at hocc
      by_cases h1 : round_double ((v : ℚ) / 100) < round_double (1 / 2 - round_double t)
      · rw [if_pos h1] at hocc; cases hocc
      · rw [if_neg h1] at hocc
        by_cases h2 : round_double ((v : ℚ) / 100) > round_double (1 / 2 + round_double t)
        · exact ⟨not_lt.mp h0, lt_of_round_double_lt h2⟩
        · rw [if_neg h2] at hocc; cases hocc
  · intro ht
    have hband : round_double (1 / 2 - round_double t) ≤ round_double (1 / 2 + round_double t) :=
      round_double_mono (by linarith)
    rw [hchain]
    by_cases h0 : v < 0
    · have h0' : ¬ (0 ≤ v) := not_le.mpr h0
      simp only [h0, h0', if_true, false_and, true_or, iff_true, iff_false]
      refine ⟨by simp, by simp, trivial, ?_, ?_, ?_⟩
      · intro h; exact absurd (lt_trans h.2 h.1) (not_lt.mpr hband)
      · intro _; trivial
      · intro _; trivial
    · have h0' : 0 ≤ v := not_lt.mp h0
      simp only [h0, h0', if_false, true_and, false_or]
      by_cases h1 : round_double ((v : ℚ) / 100) < round_double (1 / 2 - round_double t)
      · have h2 : ¬ (round_double ((v : ℚ) / 100) > round_double (1 / 2 + round_double t)) := by
          intro h; exact absurd (lt_of_lt_of_le h1 hband) (not_lt.mpr (le_of_lt h))
        simp only [h1, h2, if_true]
        refine ⟨by simp, by simp, ?_, ?_, ?_, ?_⟩
        · exact iff_of_false (by simp) (fun h => absurd h1 (not_lt.mpr h.1))
        · simp
        · intro h; rw [h] at h1; exact absurd h1 (lt_irrefl _)
        · intro h; rw [h] at h1; exact absurd h1 (not_lt.mpr hband)
      · by_cases h2 : round_double ((v : ℚ) / 100) > round_double (1 / 2 + round_double t)
        · simp only [h1, h2, if_true, if_false]
          refine ⟨by simp, by simp, ?_, ?_, ?_, ?_⟩
          · exact iff_of_false (by simp) (fun h => absurd h2 (not_lt.mpr h.2))
          · simp
          · intro h; rw [h] at h2; exact absurd h2 (not_lt.mpr hband)
          · intro h; rw [h] at h2; exact absurd h2 (lt_irrefl _)
        · simp only [h1, h2, if_false]
          refine ⟨by simp, by simp, ?_, ?_, ?_, ?_⟩
          · exact iff_of_true trivial ⟨not_lt.mp h1, not_lt.mp h2⟩
          · simp
          · intro _; trivial
          · intro _; trivial

theorem round_double_threshold :
    round_double (1080863910568919 / 2 ^ 55) = 1080863910568919 / 2 ^ 55 := by
  rw [round_double_of_nonneg _ (by norm_num),
    round_magnitude_near (1080863910568919 / 2 ^ 55) (-6) 8646911284551352 (by norm_num)
      (by norm_num) (by norm_num) (by norm_num) (by norm_num)]
  norm_num

/-- C1, counterexample: for the threshold t that is the double nearest to 0.03
(so t >= 0) and the value v = 47, the exact condition 47/100 < 0.5 - t of the
claimed chain holds, yet the code classifies the cell unknown: `47/100.` and
`0.5 - t` round to the same double. -/
theorem classify_rounds_to_unknown :
    (0 : ℚ) ≤ 1080863910568919 / 2 ^ 55
      ∧ round_double (1080863910568919 / 2 ^ 55) = 1080863910568919 / 2 ^ 55
      ∧ ¬ ((47 : Int) < 0)
      ∧ ((47 : Int) : ℚ) / 100 < 1 / 2 - 1080863910568919 / 2 ^ 55
      ∧ classify (1080863910568919 / 2 ^ 55) 47 = OccupancyState.unknown := by
  refine ⟨by norm_num, round_double_threshold, by decide, by norm_num, ?_⟩
  have hval : round_double (((47 : Int) : ℚ) / 100) = 8466767299456532 * 2 ^ (-54 : Int) := by
    have : (((47 : Int) : ℚ) / 100) = 47 / 100 := by norm_num
    rw [this, round_double_47]
  have hhi : (1 : ℚ) / 2 ≤ round_double (1 / 2 + 1080863910568919 / 2 ^ 55) := by
    have := round_double_mono (x := 1 / 2) (y := 1 / 2 + 1080863910568919 / 2 ^ 55) (by norm_num)
    rw [round_double_half] at this
    exact this
  rw [classify_chain, round_double_threshold, if_neg (by decide), hval, round_double_lo,
    if_neg (lt_irrefl _), if_neg]
  intro h
  have h2 : (8466767299456532 : ℚ) * 2 ^ (-54 : Int) < 1 / 2 := by norm_num
  linarith

/-! ### Row-major decoding -/

theorem wrapU32_of_range (n : Int) (h0 : 0 ≤ n) (h1 : n < 2 ^ 32) : wrapU32 n = n := by
  unfold wrapU32
  exact Int.emod_eq_of_lt h0 h1

theorem toInt32_of_range (n : Int) (h0 : 0 ≤ n) (h1 : n < 2 ^ 31) : toInt32 n = n := by
  unfold toInt32
  omega

theorem decode_cell_on_grid (w h : Nat) (c : Int) (hw : 0 < w) (hw32 : w < 2 ^ 32)
    (h0 : 0 ≤ c) (hc : c < (h : Int) * (w : Int)) (hint : c < 2 ^ 31) :
    ∃ x_ y_ : Int, decode_cell w c = Except.ok (x_, y_) ∧ y_ = c / (w : Int)
      ∧ x_ = c - y_ * (w : Int) ∧ 0 ≤ x_ ∧ x_ < (w : Int) ∧ 0 ≤ y_ ∧ y_ < (h : Int)
      ∧ y_ * (w : Int) + x_ = c := by
  have hwpos : (0 : Int) < (w : Int) := by exact_mod_cast hw
  have hwlt : (w : Int) < 2 ^ 32 := by exact_mod_cast hw32
  have hww : wrapU32 (w : Int) = (w : Int) := wrapU32_of_range _ (le_of_lt hwpos) hwlt
  have hcw : wrapU32 c = c := wrapU32_of_range _ h0 (by omega)
  have hq0 : 0 ≤ c / (w : Int) := Int.ediv_nonneg h0 (le_of_lt hwpos)
  have hqle : c / (w : Int) ≤ c := Int.ediv_le_self _ h0
  have hqy : toInt32 (c / (w : Int)) = c / (w : Int) := toInt32_of_range _ hq0 (by omega)
  have hmul : c / (w : Int) * (w : Int) ≤ c := Int.ediv_mul_le _ (ne_of_gt hwpos)
  have hmul0 : 0 ≤ c / (w : Int) * (w : Int) := mul_nonneg hq0 (le_of_lt hwpos)
  have hrem : c - c / (w : Int) * (w : Int) = c % (w : Int) := by
    have := Int.emod_add_ediv c (w : Int)
    rw [mul_comm] at this
    omega
  have hr0 : 0 ≤ c % (w : Int) := Int.emod_nonneg _ (ne_of_gt hwpos)
  have hr1 : c % (w : Int) < (w : Int) := Int.emod_lt_of_pos _ hwpos
  have hqh : c / (w : Int) < (h : Int) := Int.ediv_lt_of_lt_mul hwpos hc
  refine ⟨c - c / (w : Int) * (w : Int), c / (w : Int), ?_, rfl, rfl, ?_, ?_, hq0, hqh, ?_⟩
  · unfold decode_cell
    rw [hww, hcw, if_neg (ne_of_gt hwpos), hqy]
    simp only []
    rw [wrapU32_of_range _ hq0 (by omega),
      wrapU32_of_range _ hmul0 (by omega), wrapU32_of_range _ (by omega) (by omega),
      toInt32_of_range _ (by omega) (by omega)]
  · omega
  · omega
  · omega

/-! ### Selection -/


/-- Loop invariant of the selection loop after `n` iterations. -/
theorem select_loop_inv (states : List OccupancyState) (mi : List ℚ)
    (hs : mi.length ≤ states.length) (hfit : mi.length ≤ 2 ^ 31) (n : Nat)
    (hn : n ≤ mi.length) :
    ∃ cell best, select_loop states mi n = Except.ok (cell, best) ∧
      ((cell = 0 ∧ best = 0 ∧
          ∀ k m, k < n → states[k]? = some OccupancyState.free → mi[k]? = some m → m ≤ 0)
       ∨ (∃ c : Nat, cell = (c : Int) ∧ c < n ∧ states[c]? = some OccupancyState.free
            ∧ mi[c]? = some best ∧ 0 < best
            ∧ (∀ k m, k < n → states[k]? = some OccupancyState.free → mi[k]? = some m → m ≤ best)
            ∧ (∀ k m, k < c → states[k]? = some OccupancyState.free → mi[k]? = some m →
                m < best))) := by
  induction n with
  | zero =>
    refine ⟨0, 0, rfl, Or.inl ⟨rfl, rfl, ?_⟩⟩
    intro k m hk
    exact absurd hk (Nat.not_lt_zero k)
  | succ n ih =>
    have hlt : n < mi.length := hn
    have hlts : n < states.length := lt_of_lt_of_le hlt hs
    obtain ⟨cell, best, hrun, hinv⟩ := ih (Nat.le_of_lt hlt)
    have hsn : states[n]? = some states[n] := List.getElem?_eq_getElem hlts
    have hmn : mi[n]? = some mi[n] := List.getElem?_eq_getElem hlt
    have hconv : toInt32 (n : Int) = (n : Int) :=
      toInt32_of_range _ (Int.ofNat_nonneg n) (by
        have : (n : Int) < ((2 ^ 31 : Nat) : Int) := by exact_mod_cast lt_of_lt_of_le hlt hfit
        simpa using this)
    simp only [select_loop, hrun, select_step, hsn, hmn]
    by_cases hfree : states[n] = OccupancyState.free
    · by_cases hgt : mi[n] > best
      · -- the accumulator moves to cell n
        simp only [hfree, hgt, if_true, hconv]
        refine ⟨(n : Int), mi[n], rfl, Or.inr ⟨n, rfl, Nat.lt_succ_self n, ?_, hmn, ?_, ?_, ?_⟩⟩
        · rw [hsn, hfree]
        · rcases hinv with ⟨_, hb, _⟩ | ⟨c, _, _, _, _, hpos, _, _⟩
          · rw [hb] at hgt; exact hgt
          · exact lt_trans hpos hgt
        · intro k m hk hkf hkm
          rcases Nat.lt_succ_iff_lt_or_eq.mp hk with hk' | hk'
          · rcases hinv with ⟨_, hb, hall⟩ | ⟨c, _, _, _, _, _, hall, _⟩
            · have := hall k m hk' hkf hkm
              rw [hb] at hgt
              exact le_of_lt (lt_of_le_of_lt this hgt)
            · exact le_of_lt (lt_of_le_of_lt (hall k m hk' hkf hkm) hgt)
          · subst hk'
            rw [hmn] at hkm
            exact le_of_eq (Option.some.inj hkm).symm
        · intro k m hk hkf hkm
          rcases hinv with ⟨_, hb, hall⟩ | ⟨c, _, _, _, _, _, hall, _⟩
          · have := hall k m hk hkf hkm
            rw [hb] at hgt
            exact lt_of_le_of_lt this hgt
          · exact lt_of_le_of_lt (hall k m hk hkf hkm) hgt
      · -- a free cell that does not beat the running maximum
        simp only [hfree, hgt, if_true, if_false]
        refine ⟨cell, best, rfl, ?_⟩
        rcases hinv with ⟨hc, hb, hall⟩ | ⟨c, hc, hcn, hcf, hcm, hpos, hall, hfirst⟩
        · refine Or.inl ⟨hc, hb, ?_⟩
          intro k m hk hkf hkm
          rcases Nat.lt_succ_iff_lt_or_eq.mp hk with hk' | hk'
          · exact hall k m hk' hkf hkm
          · subst hk'
            rw [hmn] at hkm
            rw [← Option.some.inj hkm, ← hb]
            exact not_lt.mp hgt
        · refine Or.inr ⟨c, hc, Nat.lt_succ_of_lt hcn, hcf, hcm, hpos, ?_, hfirst⟩
          intro k m hk hkf hkm
          rcases Nat.lt_succ_iff_lt_or_eq.mp hk with hk' | hk'
          · exact hall k m hk' hkf hkm
          · subst hk'
            rw [hmn] at hkm
            rw [← Option.some.inj hkm]
            exact not_lt.mp hgt
    · -- a cell that is not free is skipped
      simp only [hfree, if_false]
      refine ⟨cell, best, rfl, ?_⟩
      have hskip : ∀ m, states[n]? = some OccupancyState.free → mi[n]? = some m → False := by
        intro m hkf _
        rw [hsn] at hkf
        exact hfree (Option.some.inj hkf)
      rcases hinv with ⟨hc, hb, hall⟩ | ⟨c, hc, hcn, hcf, hcm, hpos, hall, hfirst⟩
      · refine Or.inl ⟨hc, hb, ?_⟩
        intro k m hk hkf hkm
        rcases Nat.lt_succ_iff_lt_or_eq.mp hk with hk' | hk'
        · exact hall k m hk' hkf hkm
        · subst hk'
          exact absurd (hskip m hkf hkm) id
      · refine Or.inr ⟨c, hc, Nat.lt_succ_of_lt hcn, hcf, hcm, hpos, ?_, hfirst⟩
        intro k m hk hkf hkm
        rcases Nat.lt_succ_iff_lt_or_eq.mp hk with hk' | hk'
        · exact hall k m hk' hkf hkm
        · subst hk'
          exact absurd (hskip m hkf hkm) id

/-! ### Sweep -/

theorem accrue_args_append (l1 l2 : List SweepCall) :
    accrue_args (l1 ++ l2) = accrue_args l1 ++ accrue_args l2 := by
  induction l1 with
  | nil => rfl
  | cons c rest ih =>
    cases c <;> simp [accrue_args, ih]

theorem spatial_calls_eq (A S : Int) (i n : Nat) :
    spatial_calls A S i n =
      (List.range n).map (fun (j : Nat) => SweepCall.accrue_mi ((j : ℚ) / (S : ℚ)) ((i : ℚ) / (A : ℚ))) := by
  induction n with
  | zero => rfl
  | succ n ih => simp [spatial_calls, ih, List.range_succ]

theorem accrue_args_spatial (A S : Int) (i n : Nat) :
    accrue_args (spatial_calls A S i n) =
      (List.range n).map (fun (j : Nat) => ((j : ℚ) / (S : ℚ), (i : ℚ) / (A : ℚ))) := by
  induction n with
  | zero => rfl
  | succ n ih => simp [spatial_calls, accrue_args_append, ih, List.range_succ, accrue_args]

theorem angular_calls_eq (A S : Int) (ok : Nat → Bool) (hok : ∀ i, ok i = true) (n : Nat) :
    angular_calls A S ok n =
      ((List.range n).flatMap
          (fun (i : Nat) => spatial_calls A S i S.toNat ++ [SweepCall.draw_map]), false) := by
  induction n with
  | zero => rfl
  | succ n ih => simp [angular_calls, ih, hok, List.range_succ, List.flatMap_append]

theorem accrue_args_angular (A S : Int) (n : Nat) :
    accrue_args ((List.range n).flatMap
        (fun (i : Nat) => spatial_calls A S i S.toNat ++ [SweepCall.draw_map])) =
      (List.range n).flatMap
        (fun (i : Nat) => (List.range S.toNat).map (fun (j : Nat) => ((j : ℚ) / (S : ℚ), (i : ℚ) / (A : ℚ)))) := by
  induction n with
  | zero => rfl
  | succ n ih =>
    simp [List.range_succ, List.flatMap_append, accrue_args_append, ih, accrue_args_spatial,
      accrue_args]

theorem sweep_args_length (A S : Int) (n : Nat) :
    ((List.range n).flatMap
        (fun (i : Nat) => (List.range S.toNat).map
          (fun (j : Nat) => ((j : ℚ) / (S : ℚ), (i : ℚ) / (A : ℚ))))).length = n * S.toNat := by
  induction n with
  | zero => simp
  | succ n ih =>
    rw [List.range_succ, List.flatMap_append, List.length_append, ih]
    simp [Nat.succ_mul]

theorem sweep_args_get (A S : Int) (n i j : Nat) (hi : i < n) (hj : j < S.toNat) :
    ((List.range n).flatMap
        (fun (i : Nat) => (List.range S.toNat).map
          (fun (j : Nat) => ((j : ℚ) / (S : ℚ), (i : ℚ) / (A : ℚ)))))[i * S.toNat + j]? =
      some ((j : ℚ) / (S : ℚ), (i : ℚ) / (A : ℚ)) := by
  induction n with
  | zero => exact absurd hi (Nat.not_lt_zero i)
  | succ n ih =>
    rw [List.range_succ, List.flatMap_append]
    rcases Nat.lt_succ_iff_lt_or_eq.mp hi with hlt | heq
    · have hbound : i * S.toNat + j < n * S.toNat := by
        calc i * S.toNat + j < i * S.toNat + S.toNat := Nat.add_lt_add_left hj _
          _ = (i + 1) * S.toNat := (Nat.succ_mul i S.toNat).symm
          _ ≤ n * S.toNat := Nat.mul_le_mul_right _ hlt
      rw [List.getElem?_append_left (by rw [sweep_args_length]; exact hbound)]
      exact ih hlt
    · subst heq
      rw [List.getElem?_append_right (by rw [sweep_args_length]; exact Nat.le_add_right _ _),
        sweep_args_length]
      simp [List.getElem?_range hj]

/-- C7: for step counts A (angular) and S (spatial), when `ros::ok()` never
reports cancellation, the sweep `compute_mi` calls `reset_mi` first and then,
angular loop outside and spatial loop inside, `accrue_mi(j/S, i/A)` for every
`i < A`, `j < S` (each angular iteration closed by one `draw_map`); the
`accrue_mi` calls number exactly `A * S`, the call at position `i * S + j` has
arguments `(j/S, i/A)`, and every argument lies in `[0, 1)`. -/
theorem compute_mi_sweep (A S : Nat) (ok : Nat → Bool) (hok : ∀ i, ok i = true) :
    compute_mi (A : Int) (S : Int) ok =
        SweepCall.reset_mi ::
          (List.range A).flatMap (fun (i : Nat) =>
            (List.range S).map
                (fun (j : Nat) => SweepCall.accrue_mi ((j : ℚ) / (S : ℚ)) ((i : ℚ) / (A : ℚ)))
              ++ [SweepCall.draw_map])
      ∧ (accrue_args (compute_mi (A : Int) (S : Int) ok)).length = A * S
      ∧ (∀ i j, i < A → j < S →
          (accrue_args (compute_mi (A : Int) (S : Int) ok))[i * S + j]? =
            some ((j : ℚ) / (S : ℚ), (i : ℚ) / (A : ℚ)))
      ∧ (∀ p ∈ accrue_args (compute_mi (A : Int) (S : Int) ok),
          0 ≤ p.1 ∧ p.1 < 1 ∧ 0 ≤ p.2 ∧ p.2 < 1) := by
  have hargs : accrue_args (compute_mi (A : Int) (S : Int) ok) =
      (List.range A).flatMap
        (fun (i : Nat) => (List.range S).map
          (fun (j : Nat) => ((j : ℚ) / (((S : Int)) : ℚ), (i : ℚ) / (((A : Int)) : ℚ)))) := by
    unfold compute_mi
    rw [angular_calls_eq _ _ ok hok]
    simp only [accrue_args, Int.toNat_ofNat]
    have := accrue_args_angular (A : Int) (S : Int) A
    simpa only [Int.toNat_ofNat] using this
  refine ⟨?_, ?_, ?_, ?_⟩
  · unfold compute_mi
    rw [angular_calls_eq _ _ ok hok]
    simp only [Int.toNat_ofNat, spatial_calls_eq, Int.cast_natCast]
  · rw [hargs]
    have := sweep_args_length (A : Int) (S : Int) A
    simpa only [Int.toNat_ofNat] using this
  · intro i j hi hj
    rw [hargs]
    have := sweep_args_get (A : Int) (S : Int) A i j hi (by simpa using hj)
    simpa only [Int.toNat_ofNat, Int.cast_natCast] using this
  · intro p hp
    rw [hargs] at hp
    simp only [List.mem_flatMap, List.mem_map, List.mem_range] at hp
    obtain ⟨i, hi, j, hj, rfl⟩ := hp
    have hS : (0 : ℚ) < (S : ℚ) := by exact_mod_cast (Nat.lt_of_le_of_lt (Nat.zero_le j) hj)
    have hA : (0 : ℚ) < (A : ℚ) := by exact_mod_cast (Nat.lt_of_le_of_lt (Nat.zero_le i) hi)
    have hjS : (j : ℚ) < (S : ℚ) := by exact_mod_cast hj
    have hiA : (i : ℚ) < (A : ℚ) := by exact_mod_cast hi
    simp only [Int.cast_natCast]
    refine ⟨div_nonneg (Nat.cast_nonneg j) (le_of_lt hS), (div_lt_one hS).mpr hjS,
      div_nonneg (Nat.cast_nonneg i) (le_of_lt hA), (div_lt_one hA).mpr hiA⟩

/-- C7 at A = 2, S = 3 with an always-live node: six `accrue_mi` calls. -/
theorem compute_mi_sweep_witness :
    (accrue_args (compute_mi ((2 : Nat) : Int) ((3 : Nat) : Int) (fun _ => true))).length = 2 * 3 :=
  (compute_mi_sweep 2 3 (fun _ => true) (fun _ => rfl)).2.1

/-! ### Normalisation -/

theorem foldl_max_spec (l : List ℚ) (a : ℚ) :
    a ≤ l.foldl (fun largest v => if largest < v then v else largest) a
      ∧ (∀ v ∈ l, v ≤ l.foldl (fun largest v => if largest < v then v else largest) a)
      ∧ l.foldl (fun largest v => if largest < v then v else largest) a ∈ a :: l := by
  induction l generalizing a with
  | nil => simp
  | cons b rest ih =>
    simp only [List.foldl_cons]
    obtain ⟨h1, h2, h3⟩ := ih (if a < b then b else a)
    have hab : a ≤ (if a < b then b else a) ∧ b ≤ (if a < b then b else a) := by
      by_cases h : a < b
      · simp only [h, if_true]; exact ⟨le_of_lt h, le_refl b⟩
      · simp only [h, if_false]; exact ⟨le_refl a, not_lt.mp h⟩
    refine ⟨le_trans hab.1 h1, ?_, ?_⟩
    · intro v hv
      rcases List.mem_cons.mp hv with rfl | hv'
      · exact le_trans hab.2 h1
      · exact h2 v hv'
    · rcases List.mem_cons.mp h3 with h | h
      · rw [h]
        by_cases hlt : a < b
        · simp [hlt]
        · simp [hlt]
      · exact List.mem_cons_of_mem _ (List.mem_cons_of_mem _ h)

theorem max_element_spec (mi : List ℚ) (M : ℚ) (h : max_element mi = some M) :
    M ∈ mi ∧ ∀ v ∈ mi, v ≤ M := by
  cases mi with
  | nil => simp [max_element] at h
  | cons a rest =>
    simp only [max_element, Option.some.injEq] at h
    obtain ⟨h1, h2, h3⟩ := foldl_max_spec rest a
    rw [h] at h1 h2 h3
    refine ⟨h3, ?_⟩
    intro v hv
    rcases List.mem_cons.mp hv with rfl | hv'
    · exact h1
    · exact h2 v hv'

theorem max_element_zero (mi : List ℚ) (hz : ∀ v ∈ mi, v = 0) (hne : mi ≠ []) :
    max_element mi = some 0 := by
  cases mi with
  | nil => exact absurd rfl hne
  | cons a rest =>
    have hM := max_element_spec (a :: rest)
      (rest.foldl (fun largest v => if largest < v then v else largest) a) rfl
    have := hz _ hM.1
    simp only [max_element, this]

theorem draw_mi_loop_zero (mi : List ℚ) (n : Nat) (hn0 : 0 < n) (hn : n ≤ mi.length) :
    draw_mi_loop mi (some 0) n = Except.error Fault.div_by_zero := by
  induction n with
  | zero => exact absurd hn0 (Nat.lt_irrefl 0)
  | succ k ih =>
    have hk : k < mi.length := hn
    rcases Nat.eq_zero_or_pos k with h0 | hpos
    · subst h0
      simp [draw_mi_loop, List.getElem?_eq_getElem hk, mi_display]
    · simp [draw_mi_loop, ih hpos (Nat.le_of_lt hk)]

theorem to_int8_unit (q : ℚ) (h0 : 0 ≤ q) (h1 : q ≤ 100) :
    to_int8 q = Except.ok ⌊q⌋ ∧ 0 ≤ ⌊q⌋ ∧ ⌊q⌋ ≤ 100 := by
  have hf0 : 0 ≤ ⌊q⌋ := Int.floor_nonneg.mpr h0
  have hf1 : ⌊q⌋ ≤ 100 := by
    have : ((⌊q⌋ : Int) : ℚ) ≤ 100 := le_trans (Int.floor_le q) h1
    exact_mod_cast this
  refine ⟨?_, hf0, hf1⟩
  unfold to_int8
  simp only [h0, if_true]
  rw [if_pos ⟨by omega, by omega⟩]

theorem display_range (v M : ℚ) (hM : 0 < M) (hv0 : 0 ≤ v) (hvM : v ≤ M) :
    0 ≤ round_double (100 * round_double (1 - round_double (v / M)))
      ∧ round_double (100 * round_double (1 - round_double (v / M))) ≤ 100 := by
  have h1 : 0 ≤ v / M := div_nonneg hv0 (le_of_lt hM)
  have h2 : v / M ≤ 1 := (div_le_one hM).mpr hvM
  have d0 : 0 ≤ round_double (v / M) := by
    have := round_double_mono h1
    rwa [round_double_zero] at this
  have d1 : round_double (v / M) ≤ 1 := by
    have := round_double_mono h2
    rwa [round_double_one] at this
  have s0 : 0 ≤ round_double (1 - round_double (v / M)) := by
    have := round_double_mono (x := 0) (y := 1 - round_double (v / M)) (by linarith)
    rwa [round_double_zero] at this
  have s1 : round_double (1 - round_double (v / M)) ≤ 1 := by
    have := round_double_mono (x := 1 - round_double (v / M)) (y := 1) (by linarith)
    rwa [round_double_one] at this
  constructor
  · have := round_double_mono (x := 0) (y := 100 * round_double (1 - round_double (v / M)))
      (by linarith)
    rwa [round_double_zero] at this
  · have := round_double_mono (x := 100 * round_double (1 - round_double (v / M))) (y := 100)
      (by linarith)
    rwa [round_double_hundred] at this

theorem display_of_max (M : ℚ) (hM : 0 < M) :
    round_double (100 * round_double (1 - round_double (M / M))) = 0 := by
  rw [div_self (ne_of_gt hM), round_double_one]
  norm_num [round_double_zero]

theorem draw_mi_loop_pos (mi : List ℚ) (M : ℚ) (hM : 0 < M) (h0 : ∀ v ∈ mi, 0 ≤ v)
    (hmax : ∀ v ∈ mi, v ≤ M) (n : Nat) (hn : n ≤ mi.length) :
    draw_mi_loop mi (some M) n =
      Except.ok ((mi.take n).map
        (fun v => ⌊round_double (100 * round_double (1 - round_double (v / M)))⌋)) := by
  induction n with
  | zero => simp [draw_mi_loop]
  | succ k ih =>
    have hk : k < mi.length := hn
    have hmem : mi[k] ∈ mi := List.getElem_mem hk
    have hr := display_range mi[k] M hM (h0 _ hmem) (hmax _ hmem)
    have hconv := (to_int8_unit _ hr.1 hr.2).1
    simp only [draw_mi_loop, ih (Nat.le_of_lt hk), List.getElem?_eq_getElem hk, mi_display,
      if_neg (ne_of_gt hM), hconv]
    rw [List.take_succ, List.getElem?_eq_getElem hk]
    simp only [Option.toList_some, List.map_append, List.map_cons, List.map_nil]

/-! ### Map update and normalisation: the claims -/

theorem convert_vacancy_ok (pow : ℚ → ℚ → ℚ) (res : ℚ) (data : List Int) (n : Nat)
    (hn : n ≤ data.length) :
    OccupancyGridMI.convert_vacancy pow res data n =
      Except.ok ((data.take n).map (OccupancyGridMI.vacancy_value pow res)) := by
  induction n with
  | zero => simp [OccupancyGridMI.convert_vacancy]
  | succ k ih =>
    have hk : k < data.length := hn
    simp only [OccupancyGridMI.convert_vacancy, ih (Nat.le_of_lt hk),
      List.getElem?_eq_getElem hk]
    rw [List.take_succ, List.getElem?_eq_getElem hk]
    simp only [Option.toList_some, List.map_append, List.map_cons, List.map_nil]

/-- C5, counterexample: a message that declares 2 x 1 cells but carries three
values is not rejected by `map_callback`; the stored metadata, frame id and
state grid are all replaced, so the previous grid state is not retained. -/
theorem map_callback_accepts_mismatch :
    (2 * 1 ≠ ([100, 100, 100] : List Int).length)
      ∧ map_callback (1 / 10)
          { map_info := ⟨1, 1, 1, 0, 0⟩, map_frame_id := "map", states := [OccupancyState.free] }
          { frame_id := "odom", info := ⟨1, 1, 2, 0, 0⟩, data := [100, 100, 100] }
        = Except.ok
          { map_info := ⟨1, 1, 2, 0, 0⟩, map_frame_id := "odom",
            states := [OccupancyState.occupied, OccupancyState.occupied] }
      ∧ ({ map_info := ⟨1, 1, 2, 0, 0⟩, map_frame_id := "odom",
            states := [OccupancyState.occupied, OccupancyState.occupied] } : GridState)
        ≠ { map_info := ⟨1, 1, 1, 0, 0⟩, map_frame_id := "map", states := [OccupancyState.free] } := by
  refine ⟨by decide, ?_, ?_⟩
  · have h := convert_states_ok (1 / 10) [100, 100, 100] 2 (by decide)
    have hsize : (wrapU32 (((2 : Nat) : Int) * ((1 : Nat) : Int))).toNat = 2 := by decide
    have hocc : classify (1 / 10) 100 = OccupancyState.occupied := by
      have hval : round_double (((100 : Int) : ℚ) / 100) = 1 := by
        have : (((100 : Int) : ℚ) / 100) = 1 := by norm_num
        rw [this, round_double_one]
      have ht0 : 0 ≤ round_double (1 / 10) := by
        have := round_double_mono (x := 0) (y := 1 / 10) (by norm_num)
        rwa [round_double_zero] at this
      have ht1 : round_double (1 / 10) ≤ 1 / 4 := by
        have := round_double_mono (x := 1 / 10) (y := 1 / 4) (by norm_num)
        rwa [round_double_quarter] at this
      have hlo : round_double (1 / 2 - round_double (1 / 10)) ≤ 1 / 2 := by
        have := round_double_mono (x := 1 / 2 - round_double (1 / 10)) (y := 1 / 2)
          (by linarith)
        rwa [round_double_half] at this
      have hhi : round_double (1 / 2 + round_double (1 / 10)) ≤ 3 / 4 := by
        have := round_double_mono (x := 1 / 2 + round_double (1 / 10)) (y := 3 / 4)
          (by linarith)
        rwa [round_double_three_quarters] at this
      rw [classify_chain, if_neg (by decide), hval, if_neg (by linarith), if_pos (by linarith)]
    simp only [map_callback, hsize, h, List.take, List.map, hocc]
  · intro h
    have := congrArg GridState.map_frame_id h
    simp at this

/-- C5, amended: neither `map_callback` compares `height * width` with the
length of the data array. Whenever the data array holds at least
`height * width` values (the `unsigned int` product), equal in length or not,
the update is accepted whatever the previous state was: the stored metadata and
frame id become those of the message, and the state grid (the vacancy grid in
`OccupancyGridMI`) is recomputed from the first `height * width` values. -/
theorem map_callback_overwrites (t : ℚ) (pow : ℚ → ℚ → ℚ) (old : GridState)
    (old_mi : OccupancyGridMI.State) (map_msg : OccupancyGrid)
    (hlen : (wrapU32 ((map_msg.info.height : Int) * (map_msg.info.width : Int))).toNat
      ≤ map_msg.data.length) :
    map_callback t old map_msg =
        Except.ok
          { map_info := map_msg.info
            map_frame_id := map_msg.frame_id
            states :=
              (map_msg.data.take
                (wrapU32 ((map_msg.info.height : Int) * (map_msg.info.width : Int))).toNat).map
                (classify t) }
      ∧ OccupancyGridMI.map_callback pow old_mi map_msg =
        Except.ok
          { map_info := map_msg.info
            map_header := map_msg.frame_id
            vacancy :=
              (map_msg.data.take
                (wrapU32 ((map_msg.info.height : Int) * (map_msg.info.width : Int))).toNat).map
                (OccupancyGridMI.vacancy_value pow map_msg.info.resolution) } := by
  constructor
  · simp only [map_callback, convert_states_ok t _ _ hlen]
  · simp only [OccupancyGridMI.map_callback, convert_vacancy_ok pow _ _ _ hlen]

/-- C5, amended, on the message of the counterexample (three values for a
2 x 1 grid). -/
theorem map_callback_overwrites_witness :
    map_callback (1 / 10)
        { map_info := ⟨1, 1, 1, 0, 0⟩, map_frame_id := "map", states := [OccupancyState.free] }
        { frame_id := "odom", info := ⟨1, 1, 2, 0, 0⟩, data := [100, 100, 100] }
      = Except.ok
        { map_info := ⟨1, 1, 2, 0, 0⟩
          map_frame_id := "odom"
          states :=
            (([100, 100, 100] : List Int).take
              (wrapU32 (((2 : Nat) : Int) * ((1 : Nat) : Int))).toNat).map (classify (1 / 10)) } :=
  (map_callback_overwrites (1 / 10) (fun a _ => a)
    { map_info := ⟨1, 1, 1, 0, 0⟩, map_frame_id := "map", states := [OccupancyState.free] }
    { map_info := ⟨1, 1, 1, 0, 0⟩, map_header := "map", vacancy := [1] }
    { frame_id := "odom", info := ⟨1, 1, 2, 0, 0⟩, data := [100, 100, 100] }
    (by decide)).1

/-- C6, counterexample: on the all-zero surface of a 1 x 1 grid both
`draw_map` normalisations divide by zero (the divisor `*mi_max` is 0), so no
display value is produced. -/
theorem draw_map_zero_divides :
    MutualInformationVisualizer.draw_map_mi ⟨1, 1, 1, 0, 0⟩ [0]
        = Except.error Fault.div_by_zero
      ∧ OccupancyGridMI.draw_map_mi [0] = Except.error Fault.div_by_zero
      ∧ ¬ ∃ out, MutualInformationVisualizer.draw_map_mi ⟨1, 1, 1, 0, 0⟩ [0] = Except.ok out := by
  have h1 : MutualInformationVisualizer.draw_map_mi ⟨1, 1, 1, 0, 0⟩ [0]
      = Except.error Fault.div_by_zero := by
    have hsize : (wrapU32 (((1 : Nat) : Int) * ((1 : Nat) : Int))).toNat = 1 := by decide
    simp only [MutualInformationVisualizer.draw_map_mi, hsize]
    rw [max_element_zero [0] (by simp) (by simp)]
    exact draw_mi_loop_zero [0] 1 (by decide) (by decide)
  refine ⟨h1, ?_, ?_⟩
  · simp only [OccupancyGridMI.draw_map_mi]
    rw [max_element_zero [0] (by simp) (by simp)]
    exact draw_mi_loop_zero [0] 1 (by decide) (by decide)
  · rintro ⟨out, hout⟩
    rw [h1] at hout
    cases hout

/-- C6, amended: `draw_map` divides by the surface maximum without a guard.
For a grid with at least one cell whose MI surface covers it: if every MI
value is zero, the normalisation of both nodes divides by zero at its first
cell; if the values are non-negative and the maximum `M` is positive, every
cell gets the display value `100 * (1 - mi[i]/M)`, computed in `double`
arithmetic and truncated to an integer, which lies in `[0, 100]`, and a
cell holding `M` gets 0. -/
theorem draw_map_normalisation (info : MapMetaData) (mi : List ℚ)
    (hcells : 0 < (wrapU32 ((info.height : Int) * (info.width : Int))).toNat)
    (hsize : (wrapU32 ((info.height : Int) * (info.width : Int))).toNat ≤ mi.length) :
    ((∀ v ∈ mi, v = 0) →
        MutualInformationVisualizer.draw_map_mi info mi = Except.error Fault.div_by_zero
          ∧ OccupancyGridMI.draw_map_mi mi = Except.error Fault.div_by_zero)
      ∧ (∀ M, max_element mi = some M → 0 < M → (∀ v ∈ mi, 0 ≤ v) →
          MutualInformationVisualizer.draw_map_mi info mi =
              Except.ok ((mi.take (wrapU32 ((info.height : Int) * (info.width : Int))).toNat).map
                (fun v => ⌊round_double (100 * round_double (1 - round_double (v / M)))⌋))
            ∧ OccupancyGridMI.draw_map_mi mi =
              Except.ok (mi.map
                (fun v => ⌊round_double (100 * round_double (1 - round_double (v / M)))⌋))
            ∧ (∀ v ∈ mi,
                0 ≤ ⌊round_double (100 * round_double (1 - round_double (v / M)))⌋
                  ∧ ⌊round_double (100 * round_double (1 - round_double (v / M)))⌋ ≤ 100)
            ∧ ⌊round_double (100 * round_double (1 - round_double (M / M)))⌋ = 0) := by
  have hne : mi ≠ [] := by
    intro h
    rw [h] at hsize
    exact absurd (lt_of_lt_of_le hcells hsize) (Nat.lt_irrefl 0)
  constructor
  · intro hz
    have hmax := max_element_zero mi hz hne
    constructor
    · simp only [MutualInformationVisualizer.draw_map_mi, hmax]
      exact draw_mi_loop_zero mi _ hcells hsize
    · simp only [OccupancyGridMI.draw_map_mi, hmax]
      exact draw_mi_loop_zero mi _ (List.length_pos.mpr hne) (le_refl _)
  · intro M hmax hM h0
    have hspec := max_element_spec mi M hmax
    refine ⟨?_, ?_, ?_, ?_⟩
    · simp only [MutualInformationVisualizer.draw_map_mi, hmax]
      exact draw_mi_loop_pos mi M hM h0 hspec.2 _ hsize
    · simp only [OccupancyGridMI.draw_map_mi, hmax]
      rw [draw_mi_loop_pos mi M hM h0 hspec.2 _ (le_refl _), List.take_length]
    · intro v hv
      have hr := display_range v M hM (h0 v hv) (hspec.2 v hv)
      exact (to_int8_unit _ hr.1 hr.2).2
    · rw [display_of_max M hM]
      norm_num

/-- C6, amended, on the all-zero surface of a 1 x 2 grid. -/
theorem draw_map_normalisation_witness :
    MutualInformationVisualizer.draw_map_mi ⟨1, 2, 1, 0, 0⟩ [0, 0]
      = Except.error Fault.div_by_zero :=
  ((draw_map_normalisation ⟨1, 2, 1, 0, 0⟩ [0, 0] (by decide) (by decide)).1
    (by simp)).1

/-! ### Selection: the claims -/

theorem select_loop_degenerate (states : List OccupancyState) (mi : List ℚ)
    (hs : mi.length ≤ states.length)
    (hnone : ∀ (k : Nat) (m : ℚ), states[k]? = some OccupancyState.free → mi[k]? = some m → m ≤ 0)
    (n : Nat) (hn : n ≤ mi.length) :
    select_loop states mi n = Except.ok (0, 0) := by
  induction n with
  | zero => rfl
  | succ n ih =>
    have hlt : n < mi.length := hn
    have hlts : n < states.length := lt_of_lt_of_le hlt hs
    have hsn : states[n]? = some states[n] := List.getElem?_eq_getElem hlts
    have hmn : mi[n]? = some mi[n] := List.getElem?_eq_getElem hlt
    simp only [select_loop, ih (Nat.le_of_lt hlt), select_step, hsn, hmn]
    by_cases hfree : states[n] = OccupancyState.free
    · have hle : mi[n] ≤ 0 := hnone n mi[n] (by rw [hsn, hfree]) hmn
      have hgt : ¬ (mi[n] > 0) := not_lt.mpr hle
      simp only [hfree, hgt, if_true, if_false]
    · simp only [hfree, if_false]

/-- C8: when the state surface covers the MI surface and no free cell has
MI > 0 (in particular when there is no free cell, or no cell at all), the
selection step of `click_callback` returns `mi_max_cell = 0` and `mi_max = 0`,
whatever the class of cell 0. -/
theorem select_degenerate (states : List OccupancyState) (mi : List ℚ)
    (hs : mi.length ≤ states.length)
    (hnone : ∀ (k : Nat) (m : ℚ), states[k]? = some OccupancyState.free → mi[k]? = some m → m ≤ 0) :
    select states mi = Except.ok (0, 0) :=
  select_loop_degenerate states mi hs hnone mi.length (le_refl _)

/-- C8 on a surface whose cell 0 is occupied and whose only free cell has
MI 0. -/
theorem select_degenerate_witness :
    select [OccupancyState.occupied, OccupancyState.free, OccupancyState.unknown] [3, 0, 5]
      = Except.ok (0, 0) :=
  select_degenerate [OccupancyState.occupied, OccupancyState.free, OccupancyState.unknown]
    [3, 0, 5] (by decide) (by
      intro k m hk hm
      match k with
      | 0 => simp at hk
      | 1 =>
        simp at hm
        exact le_of_eq hm.symm
      | 2 => simp at hk
      | k + 3 => simp at hk)

/-- C2: for an MI surface and a state surface of equal length (at most
`2^31` cells, so that the index fits the `int` variable `mi_max_cell`) in which
some free cell has MI > 0, the selection step of `click_callback` returns an
index `c` of a free cell and `mi_max = mi[c]`, this MI is at least the MI of
every free cell, and `c` is the smallest index of a free cell with that MI. -/
theorem select_argmax_free (states : List OccupancyState) (mi : List ℚ)
    (hlen : states.length = mi.length) (hfit : mi.length ≤ 2 ^ 31)
    (hex : ∃ (k : Nat) (m : ℚ), states[k]? = some OccupancyState.free ∧ mi[k]? = some m ∧ 0 < m) :
    ∃ (c : Nat) (best : ℚ), select states mi = Except.ok ((c : Int), best)
      ∧ c < mi.length
      ∧ states[c]? = some OccupancyState.free
      ∧ mi[c]? = some best
      ∧ (∀ (k : Nat) (m : ℚ), states[k]? = some OccupancyState.free → mi[k]? = some m → m ≤ best)
      ∧ (∀ (k : Nat), states[k]? = some OccupancyState.free → mi[k]? = some best → c ≤ k) := by
  obtain ⟨cell, best, hrun, hinv⟩ :=
    select_loop_inv states mi (le_of_eq hlen.symm) hfit mi.length (le_refl _)
  have hbound : ∀ (k : Nat) (m : ℚ), mi[k]? = some m → k < mi.length := by
    intro k m hm
    by_contra hge
    rw [List.getElem?_eq_none (not_lt.mp hge)] at hm
    cases hm
  rcases hinv with ⟨_, _, hall⟩ | ⟨c, hc, hcn, hcf, hcm, _, hall, hfirst⟩
  · obtain ⟨k, m, hkf, hkm, hpos⟩ := hex
    exact absurd (hall k m (hbound k m hkm) hkf hkm) (not_le.mpr hpos)
  · refine ⟨c, best, ?_, hcn, hcf, hcm, ?_, ?_⟩
    · unfold select
      rw [hrun, hc]
    · intro k m hkf hkm
      exact hall k m (hbound k m hkm) hkf hkm
    · intro k hkf hkm
      by_contra hlt
      exact absurd (hfirst k best (not_le.mp hlt) hkf hkm) (lt_irrefl best)

/-- C2 on a surface where an occupied cell has the largest MI and two free
cells tie. -/
theorem select_argmax_free_witness :
    ∃ (c : Nat) (best : ℚ),
      select [OccupancyState.occupied, OccupancyState.free, OccupancyState.free] [9, 5, 5]
        = Except.ok ((c : Int), best)
      ∧ c < ([9, 5, 5] : List ℚ).length
      ∧ [OccupancyState.occupied, OccupancyState.free, OccupancyState.free][c]?
          = some OccupancyState.free
      ∧ ([9, 5, 5] : List ℚ)[c]? = some best
      ∧ (∀ (k : Nat) (m : ℚ), [OccupancyState.occupied, OccupancyState.free, OccupancyState.free][k]?
            = some OccupancyState.free → ([9, 5, 5] : List ℚ)[k]? = some m → m ≤ best)
      ∧ (∀ (k : Nat), [OccupancyState.occupied, OccupancyState.free, OccupancyState.free][k]?
            = some OccupancyState.free → ([9, 5, 5] : List ℚ)[k]? = some best → c ≤ k) :=
  select_argmax_free [OccupancyState.occupied, OccupancyState.free, OccupancyState.free]
    [9, 5, 5] (by decide) (by norm_num) ⟨1, 5, by simp, by simp, by norm_num⟩

/-! ### Closest candidate -/

/-- The closest-candidate bookkeeping keeps the least squared distance seen:
either no candidate was closer than the initial bound and nothing was written,
or the result is a candidate of least distance. -/
theorem closest_scan_spec (x y : ℚ) (cands : List (Int × Int)) (acc : ℚ × Option (Int × Int)) :
    (closest_scan x y acc cands).1 ≤ acc.1
      ∧ (∀ p ∈ cands, (closest_scan x y acc cands).1 ≤ dist_sq x y p)
      ∧ ((closest_scan x y acc cands = acc ∧ ∀ p ∈ cands, acc.1 ≤ dist_sq x y p)
         ∨ (∃ p ∈ cands, (closest_scan x y acc cands).2 = some p
              ∧ (closest_scan x y acc cands).1 = dist_sq x y p ∧ dist_sq x y p < acc.1)) := by
  induction cands generalizing acc with
  | nil =>
    refine ⟨le_refl _, ?_, Or.inl ⟨rfl, ?_⟩⟩
    · intro p hp; cases hp
    · intro p hp; cases hp
  | cons c rest ih =>
    simp only [closest_scan, closest_update]
    by_cases hlt : dist_sq x y c < acc.1
    · simp only [hlt, if_true]
      obtain ⟨h1, h2, h3⟩ := ih (dist_sq x y c, some c)
      refine ⟨le_trans h1 (le_of_lt hlt), ?_, Or.inr ?_⟩
      · intro p hp
        rcases List.mem_cons.mp hp with rfl | hp'
        · exact h1
        · exact h2 p hp'
      · rcases h3 with ⟨heq, _⟩ | ⟨p, hp, hp2, hp1, hplt⟩
        · refine ⟨c, List.mem_cons_self _ _, ?_, ?_, hlt⟩
          · rw [heq]
          · rw [heq]
        · exact ⟨p, List.mem_cons_of_mem _ hp, hp2, hp1, lt_trans hplt hlt⟩
    · simp only [hlt, if_false]
      obtain ⟨h1, h2, h3⟩ := ih acc
      refine ⟨h1, ?_, ?_⟩
      · intro p hp
        rcases List.mem_cons.mp hp with rfl | hp'
        · exact le_trans h1 (not_lt.mp hlt)
        · exact h2 p hp'
      · rcases h3 with ⟨heq, hall⟩ | ⟨p, hp, hp2, hp1, hplt⟩
        · refine Or.inl ⟨heq, ?_⟩
          intro p hp
          rcases List.mem_cons.mp hp with rfl | hp'
          · exact not_lt.mp hlt
          · exact hall p hp'
        · exact Or.inr ⟨p, List.mem_cons_of_mem _ hp, hp2, hp1, hplt⟩

/-- Once some candidate is closer to the start than the initial bound, the
bookkeeping ends on a candidate of least distance to the start. -/
theorem closest_scan_minimises (x y d0 : ℚ) (cands : List (Int × Int))
    (h : ∃ p ∈ cands, dist_sq x y p < d0) :
    ∃ p ∈ cands, (closest_scan x y (d0, none) cands).2 = some p
      ∧ ∀ q ∈ cands, dist_sq x y p ≤ dist_sq x y q := by
  obtain ⟨_, hmin, hcase⟩ := closest_scan_spec x y cands (d0, none)
  rcases hcase with ⟨_, hge⟩ | ⟨p, hp, hp2, hp1, _⟩
  · obtain ⟨q, hq, hlt⟩ := h
    exact absurd (hge q hq) (not_le.mpr hlt)
  · refine ⟨p, hp, hp2, ?_⟩
    intro q hq
    rw [← hp1]
    exact hmin q hq

/-- A run of the lookahead loop in which every round selects and decodes
without fault: the loop succeeds, records one point per round, and its closest
candidate is the bookkeeping of `closest_scan` over those points. -/
theorem lookahead_loop_run (info : MapMetaData) (x y : ℚ) (P : Int × Int → Prop)
    (rounds : List (List OccupancyState × List ℚ))
    (hround : ∀ r ∈ rounds, ∃ sel p, select r.1 r.2 = Except.ok sel
      ∧ decode_cell info.width sel.1 = Except.ok p ∧ P p)
    (st : Lookahead) :
    ∃ st1 pts, lookahead_loop info x y st rounds = Except.ok st1
      ∧ pts.length = rounds.length
      ∧ st1.mi_points = st.mi_points ++ pts
      ∧ st1.conditioned = st.conditioned ++ pts
      ∧ (st1.closest_dist_sq, st1.closest) = closest_scan x y (st.closest_dist_sq, st.closest) pts
      ∧ ∀ p ∈ pts, P p := by
  induction rounds generalizing st with
  | nil =>
    refine ⟨st, [], rfl, rfl, by simp, by simp, rfl, ?_⟩
    intro p hp; cases hp
  | cons r rest ih =>
    obtain ⟨sel, p, hsel, hdec, hP⟩ := hround r (List.mem_cons_self _ _)
    have hrest : ∀ r' ∈ rest, ∃ sel p, select r'.1 r'.2 = Except.ok sel
        ∧ decode_cell info.width sel.1 = Except.ok p ∧ P p :=
      fun r' hr' => hround r' (List.mem_cons_of_mem _ hr')
    obtain ⟨st1, pts, hrun, hlen, hpts, hcond, hscan, hall⟩ := ih hrest
      { closest_dist_sq := (closest_update x y st.closest_dist_sq st.closest p).1
        closest := (closest_update x y st.closest_dist_sq st.closest p).2
        mi_points := st.mi_points ++ [p]
        conditioned := st.conditioned ++ [p] }
    refine ⟨st1, p :: pts, ?_, ?_, ?_, ?_, ?_, ?_⟩
    · simp only [lookahead_loop, hsel, lookahead_round, hdec]
      exact hrun
    · simp [hlen]
    · rw [hpts]; simp
    · rw [hcond]; simp
    · rw [hscan]; rfl
    · intro q hq
      rcases List.mem_cons.mp hq with rfl | hq'
      · exact hP
      · exact hall q hq'

theorem on_grid_round (info : MapMetaData) (hh : 1 ≤ info.height) (hw : 1 ≤ info.width)
    (hfit : info.height * info.width ≤ 2 ^ 31) (r : List OccupancyState × List ℚ)
    (hr : r.1.length = info.height * info.width ∧ r.2.length = info.height * info.width) :
    ∃ sel p, select r.1 r.2 = Except.ok sel ∧ decode_cell info.width sel.1 = Except.ok p
      ∧ (0 ≤ p.1 ∧ p.1 < (info.width : Int) ∧ 0 ≤ p.2 ∧ p.2 < (info.height : Int)) := by
  obtain ⟨cell, best, hrun, hinv⟩ :=
    select_loop_inv r.1 r.2 (by rw [hr.1, hr.2]) (by rw [hr.2]; exact hfit) r.2.length (le_refl _)
  have hpos : 0 < info.height * info.width := Nat.mul_pos hh hw
  have hcell : 0 ≤ cell ∧ cell < ((info.height * info.width : Nat) : Int) := by
    rcases hinv with ⟨hc, _, _⟩ | ⟨c, hc, hcn, _, _, _, _, _⟩
    · rw [hc]
      exact ⟨le_refl _, by exact_mod_cast hpos⟩
    · rw [hc]
      rw [hr.2] at hcn
      exact ⟨Int.ofNat_nonneg c, by exact_mod_cast hcn⟩
  have hfitI : ((info.height * info.width : Nat) : Int) ≤ 2 ^ 31 := by exact_mod_cast hfit
  have hwle : info.width ≤ info.height * info.width := Nat.le_mul_of_pos_left _ hh
  have hw32 : info.width < 2 ^ 32 := by
    have : info.height * info.width < 2 ^ 32 := lt_of_le_of_lt hfit (by norm_num)
    exact lt_of_le_of_lt hwle this
  obtain ⟨x_, y_, hdec, _, _, hx0, hx1, hy0, hy1, _⟩ :=
    decode_cell_on_grid info.width info.height cell hw hw32 hcell.1
      (by have := hcell.2; push_cast at this; exact this) (lt_of_lt_of_le hcell.2 hfitI)
  exact ⟨(cell, best), (x_, y_), hrun, hdec, hx0, hx1, hy0, hy1⟩

theorem on_grid_dist_lt (w h : Nat) (hw : 1 ≤ w) (hh : 1 ≤ h) (x y : ℚ)
    (hx0 : 0 ≤ x) (hx1 : x ≤ (w : ℚ) - 1) (hy0 : 0 ≤ y) (hy1 : y ≤ (h : ℚ) - 1)
    (p : Int × Int) (hp : 0 ≤ p.1 ∧ p.1 < (w : Int) ∧ 0 ≤ p.2 ∧ p.2 < (h : Int)) :
    dist_sq x y p < ((h * w : Nat) : ℚ) * ((h * w : Nat) : ℚ) := by
  obtain ⟨hp1, hp2, hp3, hp4⟩ := hp
  have a0 : (0 : ℚ) ≤ (p.1 : ℚ) := by exact_mod_cast hp1
  have a1 : (p.1 : ℚ) ≤ (w : ℚ) - 1 := by
    have : p.1 ≤ (w : Int) - 1 := by omega
    have h2 : ((p.1 : Int) : ℚ) ≤ (((w : Int) - 1 : Int) : ℚ) := by exact_mod_cast this
    push_cast at h2
    exact h2
  have b0 : (0 : ℚ) ≤ (p.2 : ℚ) := by exact_mod_cast hp3
  have b1 : (p.2 : ℚ) ≤ (h : ℚ) - 1 := by
    have : p.2 ≤ (h : Int) - 1 := by omega
    have h2 : ((p.2 : Int) : ℚ) ≤ (((h : Int) - 1 : Int) : ℚ) := by exact_mod_cast this
    push_cast at h2
    exact h2
  have hwq : (1 : ℚ) ≤ (w : ℚ) := by exact_mod_cast hw
  have hhq : (1 : ℚ) ≤ (h : ℚ) := by exact_mod_cast hh
  have hdx : (x - (p.1 : ℚ)) * (x - (p.1 : ℚ)) ≤ ((w : ℚ) - 1) * ((w : ℚ) - 1) := by
    nlinarith [mul_nonneg (sub_nonneg.mpr hx1) a0, mul_nonneg (sub_nonneg.mpr a1) hx0,
      mul_nonneg hx0 a0, mul_nonneg (sub_nonneg.mpr hx1) (sub_nonneg.mpr a1)]
  have hdy : (y - (p.2 : ℚ)) * (y - (p.2 : ℚ)) ≤ ((h : ℚ) - 1) * ((h : ℚ) - 1) := by
    nlinarith [mul_nonneg (sub_nonneg.mpr hy1) b0, mul_nonneg (sub_nonneg.mpr b1) hy0,
      mul_nonneg hy0 b0, mul_nonneg (sub_nonneg.mpr hy1) (sub_nonneg.mpr b1)]
  unfold dist_sq
  push_cast
  nlinarith [mul_nonneg (sub_nonneg.mpr hwq) (sub_nonneg.mpr hhq),
    mul_nonneg (mul_nonneg (sub_nonneg.mpr hwq) (sub_nonneg.mpr hhq))
      (mul_nonneg (sub_nonneg.mpr hwq) (sub_nonneg.mpr hhq)),
    mul_nonneg (sub_nonneg.mpr hwq) (mul_nonneg (sub_nonneg.mpr hwq) (sub_nonneg.mpr hhq)),
    mul_nonneg (sub_nonneg.mpr hhq) (mul_nonneg (sub_nonneg.mpr hwq) (sub_nonneg.mpr hhq))]

theorem off_grid_dist_ge (w h : Nat) (y : ℚ) (p : Int × Int)
    (hp : 0 ≤ p.1 ∧ p.1 < (w : Int) ∧ 0 ≤ p.2 ∧ p.2 < (h : Int)) :
    ((h * w : Nat) : ℚ) * ((h * w : Nat) : ℚ)
      ≤ dist_sq ((w : ℚ) - 1 + ((h * w : Nat) : ℚ)) y p := by
  obtain ⟨_, hp2, _, _⟩ := hp
  have a1 : (p.1 : ℚ) ≤ (w : ℚ) - 1 := by
    have : p.1 ≤ (w : Int) - 1 := by omega
    have h2 : ((p.1 : Int) : ℚ) ≤ (((w : Int) - 1 : Int) : ℚ) := by exact_mod_cast this
    push_cast at h2
    exact h2
  have hn : (0 : ℚ) ≤ ((h * w : Nat) : ℚ) := Nat.cast_nonneg _
  unfold dist_sq
  nlinarith [mul_self_nonneg (y - (p.2 : ℚ)), mul_nonneg (sub_nonneg.mpr a1) hn,
    mul_self_nonneg ((w : ℚ) - 1 - (p.1 : ℚ))]

theorem lookahead_init_dist (info : MapMetaData) (hfit : info.height * info.width ≤ 2 ^ 31) :
    (lookahead_init info).closest_dist_sq =
      ((info.height * info.width : Nat) : ℚ) * ((info.height * info.width : Nat) : ℚ) := by
  have hI : ((info.height * info.width : Nat) : Int) ≤ 2 ^ 31 := by exact_mod_cast hfit
  have hwrap : wrapU32 ((info.height : Int) * (info.width : Int))
      = ((info.height * info.width : Nat) : Int) := by
    push_cast at hI ⊢
    exact wrapU32_of_range _ (mul_nonneg (Int.ofNat_nonneg _) (Int.ofNat_nonneg _)) (by omega)
  simp only [lookahead_init, hwrap, Int.cast_natCast]

/-- C9: on a grid with `height >= 1`, `width >= 1` (and at most `2^31` cells)
and for a start `(x, y)` with `0 <= x <= width - 1`, `0 <= y <= height - 1`:
the initial `closest_dist` is `height * width`; every cell index below
`height * width` decodes to coordinates whose Euclidean distance to the start
is strictly below it; hence after one or more lookahead rounds on surfaces of
`height * width` cells `closest_x, closest_y` have been written, they are the
coordinates of one of the candidates of the iteration (one of least distance
to the start), and they are the next position. For the start
`(width - 1 + height * width, y)`, outside this range, no round writes them and
the next position is never assigned. -/
theorem closest_assigned_on_grid (info : MapMetaData) (hh : 1 ≤ info.height)
    (hw : 1 ≤ info.width) (hfit : info.height * info.width ≤ 2 ^ 31) (x y : ℚ)
    (hx0 : 0 ≤ x) (hx1 : x ≤ (info.width : ℚ) - 1) (hy0 : 0 ≤ y)
    (hy1 : y ≤ (info.height : ℚ) - 1) :
    (lookahead_init info).closest_dist_sq =
        ((info.height * info.width : Nat) : ℚ) * ((info.height * info.width : Nat) : ℚ)
      ∧ (∀ c : Nat, c < info.height * info.width →
          ∃ p, decode_cell info.width (c : Int) = Except.ok p
            ∧ dist_sq x y p < (lookahead_init info).closest_dist_sq
            ∧ Real.sqrt ((dist_sq x y p : ℚ) : ℝ) < ((info.height * info.width : Nat) : ℝ))
      ∧ (∀ rounds : List (List OccupancyState × List ℚ), rounds ≠ [] →
          (∀ r ∈ rounds, r.1.length = info.height * info.width
            ∧ r.2.length = info.height * info.width) →
          ∃ st p, lookahead_loop info x y (lookahead_init info) rounds = Except.ok st
            ∧ st.mi_points.length = rounds.length
            ∧ st.closest = some p
            ∧ p ∈ st.mi_points
            ∧ (∀ q ∈ st.mi_points, dist_sq x y p ≤ dist_sq x y q)
            ∧ next_position info x y rounds = Except.ok ((p.1 : ℚ), (p.2 : ℚ)))
      ∧ (∀ rounds : List (List OccupancyState × List ℚ),
          (∀ r ∈ rounds, r.1.length = info.height * info.width
            ∧ r.2.length = info.height * info.width) →
          next_position info ((info.width : ℚ) - 1 + ((info.height * info.width : Nat) : ℚ)) y
              rounds
            = Except.error Fault.uninitialized) := by
  have hinit := lookahead_init_dist info hfit
  have hpos : 0 < info.height * info.width := Nat.mul_pos hh hw
  refine ⟨hinit, ?_, ?_, ?_⟩
  · intro c hc
    have hfitI : ((info.height * info.width : Nat) : Int) ≤ 2 ^ 31 := by exact_mod_cast hfit
    have hcI : (c : Int) < ((info.height * info.width : Nat) : Int) := by exact_mod_cast hc
    have hw32 : info.width < 2 ^ 32 :=
      lt_of_le_of_lt (Nat.le_mul_of_pos_left _ hh) (lt_of_le_of_lt hfit (by norm_num))
    obtain ⟨x_, y_, hdec, _, _, hx0', hx1', hy0', hy1', _⟩ :=
      decode_cell_on_grid info.width info.height (c : Int) hw hw32 (Int.ofNat_nonneg c)
        (by have := hcI; push_cast at this; exact this) (lt_of_lt_of_le hcI hfitI)
    have hlt := on_grid_dist_lt info.width info.height hw hh x y hx0 hx1 hy0 hy1 (x_, y_)
      ⟨hx0', hx1', hy0', hy1'⟩
    refine ⟨(x_, y_), hdec, by rw [hinit]; exact hlt, ?_⟩
    have hposR : (0 : ℝ) < ((info.height * info.width : Nat) : ℝ) := by exact_mod_cast hpos
    rw [Real.sqrt_lt' hposR]
    have : ((dist_sq x y (x_, y_) : ℚ) : ℝ)
        < ((((info.height * info.width : Nat) : ℚ) * ((info.height * info.width : Nat) : ℚ) : ℚ) : ℝ) := by
      exact_mod_cast hlt
    rw [pow_two]
    push_cast at this ⊢
    exact this
  · intro rounds hne hsize
    obtain ⟨st, pts, hrun, hlen, hpts, _, hscan, hall⟩ :=
      lookahead_loop_run info x y
        (fun p => 0 ≤ p.1 ∧ p.1 < (info.width : Int) ∧ 0 ≤ p.2 ∧ p.2 < (info.height : Int))
        rounds (fun r hr => on_grid_round info hh hw hfit r (hsize r hr)) (lookahead_init info)
    have hmi : st.mi_points = pts := by rw [hpts]; rfl
    obtain ⟨_, hmin, hcase⟩ :=
      closest_scan_spec x y pts ((lookahead_init info).closest_dist_sq, (lookahead_init info).closest)
    rw [← hscan] at hmin hcase
    have hptsne : pts ≠ [] := by
      intro h
      rw [h] at hlen
      exact hne (List.length_eq_zero.mp hlen.symm)
    rcases hcase with ⟨_, hge⟩ | ⟨p, hp, hp2, hp1, _⟩
    · obtain ⟨q, hq⟩ := List.exists_mem_of_ne_nil pts hptsne
      have h1 := hge q hq
      have h2 := on_grid_dist_lt info.width info.height hw hh x y hx0 hx1 hy0 hy1 q (hall q hq)
      rw [← hinit] at h2
      exact absurd h1 (not_le.mpr h2)
    · refine ⟨st, p, hrun, by rw [hmi, hlen], hp2, by rw [hmi]; exact hp, ?_, ?_⟩
      · intro q hq
        rw [hmi] at hq
        have := hmin q hq
        simp only at hp1 this
        rw [← hp1]
        exact this
      · simp only [next_position, hrun]
        simp only at hp2
        rw [hp2]
  · intro rounds hsize
    obtain ⟨st, pts, hrun, _, _, _, hscan, hall⟩ :=
      lookahead_loop_run info ((info.width : ℚ) - 1 + ((info.height * info.width : Nat) : ℚ)) y
        (fun p => 0 ≤ p.1 ∧ p.1 < (info.width : Int) ∧ 0 ≤ p.2 ∧ p.2 < (info.height : Int))
        rounds (fun r hr => on_grid_round info hh hw hfit r (hsize r hr)) (lookahead_init info)
    obtain ⟨_, _, hcase⟩ :=
      closest_scan_spec ((info.width : ℚ) - 1 + ((info.height * info.width : Nat) : ℚ)) y pts
        ((lookahead_init info).closest_dist_sq, (lookahead_init info).closest)
    rw [← hscan] at hcase
    rcases hcase with ⟨heq, _⟩ | ⟨p, hp, _, _, hlt⟩
    · have hclosest : st.closest = none := by
        have := congrArg Prod.snd heq
        simpa [lookahead_init] using this
      simp only [next_position, hrun, hclosest]
    · have h1 := off_grid_dist_ge info.width info.height y p (hall p hp)
      simp only at hlt
      rw [hinit] at hlt
      exact absurd h1 (not_le.mpr hlt)

/-! ### Concrete runs -/

/-- C1, amended, at threshold 0.25: the boundary values 25 and 75 are
unknown. -/
theorem classify_three_way_witness :
    classify (1 / 4) 25 = OccupancyState.unknown ∧ classify (1 / 4) 75 = OccupancyState.unknown :=
  ⟨(classify_three_way (1 / 4) 25).2.2.2 (by rw [round_double_quarter]; norm_num)
      |>.2.2.2.2.1 (by rw [round_double_quarter]; norm_num),
   (classify_three_way (1 / 4) 75).2.2.2 (by rw [round_double_quarter]; norm_num)
      |>.2.2.2.2.2 (by rw [round_double_quarter]; norm_num)⟩

/-- C10: for a width `w > 0` (an `unsigned int`), a height `h` and a cell index
`c` held in the `int` variable `mi_max_cell` with `0 <= c < h * w`, lines
116-117 compute `y_ = c / w` and `x_ = c - y_ * w`, and these satisfy
`0 <= x_ < w`, `0 <= y_ < h` and `y_ * w + x_ = c`. -/
theorem decode_cell_row_major (w h : Nat) (c : Int) (hw : 0 < w) (hw32 : w < 2 ^ 32)
    (h0 : 0 ≤ c) (hc : c < (h : Int) * (w : Int)) (hint : c < 2 ^ 31) :
    ∃ x_ y_ : Int, decode_cell w c = Except.ok (x_, y_) ∧ y_ = c / (w : Int)
      ∧ x_ = c - y_ * (w : Int) ∧ 0 ≤ x_ ∧ x_ < (w : Int) ∧ 0 ≤ y_ ∧ y_ < (h : Int)
      ∧ y_ * (w : Int) + x_ = c :=
  decode_cell_on_grid w h c hw hw32 h0 hc hint

/-- C10 at cell 7 of a grid of width 3 and height 4. -/
theorem decode_cell_row_major_witness :
    ∃ x_ y_ : Int, decode_cell 3 7 = Except.ok (x_, y_) ∧ y_ = 7 / ((3 : Nat) : Int)
      ∧ x_ = 7 - y_ * ((3 : Nat) : Int) ∧ 0 ≤ x_ ∧ x_ < ((3 : Nat) : Int) ∧ 0 ≤ y_
      ∧ y_ < ((4 : Nat) : Int) ∧ y_ * ((3 : Nat) : Int) + x_ = 7 :=
  decode_cell_row_major 3 4 7 (by decide) (by norm_num) (by decide) (by decide) (by norm_num)

/-- C4, the code at a failing input: on the 1 x 2 grid whose cell 0 is occupied
and whose free cell 1 has MI 0, the selection step returns cell 0; the
lookahead round records that occupied cell as candidate point, conditions on
it, and it becomes the next position. -/
theorem select_targets_occupied_cell :
    select [OccupancyState.occupied, OccupancyState.free] [3, 0] = Except.ok (0, 0)
      ∧ [OccupancyState.occupied, OccupancyState.free][0]? = some OccupancyState.occupied
      ∧ lookahead_loop ⟨1, 2, 1, 0, 0⟩ 1 0 (lookahead_init ⟨1, 2, 1, 0, 0⟩)
          [([OccupancyState.occupied, OccupancyState.free], [3, 0])]
        = Except.ok
          { closest_dist_sq := 1, closest := some (0, 0), mi_points := [(0, 0)],
            conditioned := [(0, 0)] }
      ∧ next_position ⟨1, 2, 1, 0, 0⟩ 1 0
          [([OccupancyState.occupied, OccupancyState.free], [3, 0])] = Except.ok (0, 0) := by
  have hsel : select [OccupancyState.occupied, OccupancyState.free] [3, 0]
      = Except.ok (0, 0) := by
    simp [select, select_loop, select_step]
  have hdec : decode_cell 2 0 = Except.ok (0, 0) := by rfl
  have hloop : lookahead_loop ⟨1, 2, 1, 0, 0⟩ 1 0 (lookahead_init ⟨1, 2, 1, 0, 0⟩)
        [([OccupancyState.occupied, OccupancyState.free], [3, 0])]
      = Except.ok
        { closest_dist_sq := 1, closest := some (0, 0), mi_points := [(0, 0)],
          conditioned := [(0, 0)] } := by
    simp only [lookahead_loop, hsel, lookahead_round, hdec, lookahead_init, closest_update,
      dist_sq]
    norm_num [wrapU32]
  refine ⟨hsel, by simp, hloop, ?_⟩
  simp only [next_position, hloop]
  norm_num

/-- C3, the code at a failing input: on a 1 x 1 map with start (5, 0) the only
candidate (0, 0) is at distance 5, not below the initial `closest_dist = 1`, so
`closest_x, closest_y` are never written and the next position is read from
unassigned variables. On an 11 x 6 grid the scenario of the specification
(start (0, 0), candidates (10, 0), (1, 1), (5, 5)) does yield (1, 1). -/
theorem next_position_unassigned :
    next_position ⟨1, 1, 1, 0, 0⟩ 5 0 [([OccupancyState.free], [1])]
        = Except.error Fault.uninitialized
      ∧ lookahead_loop ⟨1, 1, 1, 0, 0⟩ 5 0 (lookahead_init ⟨1, 1, 1, 0, 0⟩)
          [([OccupancyState.free], [1])]
        = Except.ok
          { closest_dist_sq := 1, closest := none, mi_points := [(0, 0)],
            conditioned := [(0, 0)] }
      ∧ closest_scan 0 0 ((lookahead_init ⟨1, 11, 6, 0, 0⟩).closest_dist_sq, none)
          [(10, 0), (1, 1), (5, 5)] = (2, some (1, 1)) := by
  have hsel : select [OccupancyState.free] [1] = Except.ok (0, 1) := by
    simp [select, select_loop, select_step, toInt32]
  have hdec : decode_cell 1 0 = Except.ok (0, 0) := by rfl
  have hloop : lookahead_loop ⟨1, 1, 1, 0, 0⟩ 5 0 (lookahead_init ⟨1, 1, 1, 0, 0⟩)
        [([OccupancyState.free], [1])]
      = Except.ok
        { closest_dist_sq := 1, closest := none, mi_points := [(0, 0)],
          conditioned := [(0, 0)] } := by
    simp only [lookahead_loop, hsel, lookahead_round, hdec, lookahead_init, closest_update,
      dist_sq]
    norm_num [wrapU32]
  refine ⟨?_, hloop, ?_⟩
  · simp only [next_position, hloop]
  · simp only [closest_scan, lookahead_init, closest_update, dist_sq]
    norm_num [wrapU32]

/-- C9 on the 3 x 3 free grid with start (1, 1) and one lookahead round. -/
theorem closest_assigned_on_grid_witness :
    ∃ st p, lookahead_loop ⟨1, 3, 3, 0, 0⟩ 1 1 (lookahead_init ⟨1, 3, 3, 0, 0⟩)
          [(List.replicate 9 OccupancyState.free, [1, 0, 0, 0, 0, 0, 0, 0, 0])] = Except.ok st
      ∧ st.mi_points.length
          = [(List.replicate 9 OccupancyState.free, ([1, 0, 0, 0, 0, 0, 0, 0, 0] : List ℚ))].length
      ∧ st.closest = some p
      ∧ p ∈ st.mi_points
      ∧ (∀ q ∈ st.mi_points, dist_sq 1 1 p ≤ dist_sq 1 1 q)
      ∧ next_position ⟨1, 3, 3, 0, 0⟩ 1 1
          [(List.replicate 9 OccupancyState.free, [1, 0, 0, 0, 0, 0, 0, 0, 0])]
        = Except.ok ((p.1 : ℚ), (p.2 : ℚ)) :=
  (closest_assigned_on_grid ⟨1, 3, 3, 0, 0⟩ (by decide) (by decide) (by norm_num) 1 1
    (by norm_num) (by norm_num) (by norm_num) (by norm_num)).2.2.1
    [(List.replicate 9 OccupancyState.free, [1, 0, 0, 0, 0, 0, 0, 0, 0])] (by simp)
    (by
      intro r hr
      rw [List.mem_singleton] at hr
      subst hr
      exact ⟨by simp, by simp⟩)

/-- The rounded chain on the configured threshold 0.09 and the value 41: the
member holds the double nearest to 0.09, `41/100.` is one spacing below the
rounded bound `0.5 - unknown_threshold`, so the cell is free although
41/100 = 0.5 - 0.09 on the configured decimals. -/
theorem classify_free_below_rounded_bound :
    round_double (9 / 100) = 3242591731706757 / 2 ^ 55
      ∧ round_double (((41 : Int) : ℚ) / 100) = 7385903388887613 * 2 ^ (-54 : Int)
      ∧ round_double (1 / 2 - 3242591731706757 / 2 ^ 55) = 7385903388887614 * 2 ^ (-54 : Int)
      ∧ classify (9 / 100) 41 = OccupancyState.free := by
  have ht : round_double (9 / 100) = 3242591731706757 / 2 ^ 55 := by
    rw [round_double_of_nonneg _ (by norm_num),
      round_magnitude_near (9 / 100) (-4) 6485183463413514 (by norm_num)
        (by norm_num) (by norm_num) (by norm_num) (by norm_num)]
    norm_num
  have hval : round_double (((41 : Int) : ℚ) / 100) = 7385903388887613 * 2 ^ (-54 : Int) := by
    rw [round_double_of_nonneg _ (by norm_num),
      round_magnitude_near (((41 : Int) : ℚ) / 100) (-2) 7385903388887613 (by norm_num)
        (by norm_num) (by norm_num) (by norm_num) (by norm_num)]
    norm_num
  have hlo : round_double (1 / 2 - 3242591731706757 / 2 ^ 55)
      = 7385903388887614 * 2 ^ (-54 : Int) := by
    rw [round_double_of_nonneg _ (by norm_num),
      round_magnitude_tie_odd (1 / 2 - 3242591731706757 / 2 ^ 55) (-2) 7385903388887613
        (by norm_num) (by norm_num) (by norm_num) (by norm_num) (by norm_num)]
    norm_num
  refine ⟨ht, hval, hlo, ?_⟩
  rw [classify_chain, ht, if_neg (by decide), hval, hlo, if_pos (by norm_num)]

/-- The display value of MI 34 under maximum 100: the three `double`
operations give `0.34`, `0.6599999999999999` and `65.99999999999999`, stored
as 65. -/
theorem mi_display_truncates_rounded :
    round_double (34 / 100) = 6124895493223875 * 2 ^ (-54 : Int)
      ∧ round_double (1 - 6124895493223875 * 2 ^ (-54 : Int))
          = 5944751508129054 * 2 ^ (-53 : Int)
      ∧ round_double (100 * (5944751508129054 * 2 ^ (-53 : Int)))
          = 4644337115725823 * 2 ^ (-46 : Int)
      ∧ mi_display 34 (some 100) = Except.ok 65 := by
  have hd : round_double (34 / 100) = 6124895493223875 * 2 ^ (-54 : Int) := by
    rw [round_double_of_nonneg _ (by norm_num),
      round_magnitude_near (34 / 100) (-2) 6124895493223875 (by norm_num) (by norm_num)
        (by norm_num) (by norm_num) (by norm_num)]
    norm_num
  have hs : round_double (1 - 6124895493223875 * 2 ^ (-54 : Int))
      = 5944751508129054 * 2 ^ (-53 : Int) := by
    rw [round_double_of_nonneg _ (by norm_num),
      round_magnitude_tie (1 - 6124895493223875 * 2 ^ (-54 : Int)) (-1) 5944751508129054
        (by norm_num) (by norm_num) (by norm_num) (by norm_num) (by norm_num)]
    norm_num
  have hp : round_double (100 * (5944751508129054 * 2 ^ (-53 : Int)))
      = 4644337115725823 * 2 ^ (-46 : Int) := by
    rw [round_double_of_nonneg _ (by norm_num),
      round_magnitude_near (100 * (5944751508129054 * 2 ^ (-53 : Int))) 6 4644337115725823
        (by norm_num) (by norm_num) (by norm_num) (by norm_num) (by norm_num)]
    norm_num
  refine ⟨hd, hs, hp, ?_⟩
  have hfloor : ⌊(4644337115725823 : ℚ) * 2 ^ (-46 : Int)⌋ = 65 :=
    Int.floor_eq_iff.mpr ⟨by norm_num, by norm_num⟩
  simp only [mi_display]
  rw [if_neg (by norm_num), hd, hs, hp]
  have h0 : (0 : ℚ) ≤ 4644337115725823 * 2 ^ (-46 : Int) := by norm_num
  simp only [to_int8, h0, if_true, hfloor]
  norm_num

end RangeMI
